import Mathlib

/-!
Verification of mbideau/vcardtools (src/vcardlib.py) against its specification.

Python strings are modelled as lists of Unicode codepoints (`PyStr := List Nat`);
the helper `s2c` converts a Lean string literal to this representation so that
concrete inputs can be written readably.  All functions are executable and
translated statement-by-statement from src/vcardlib.py; line numbers in the
doc comments refer to that file.
-/

namespace Vcardlib

/-- Python strings as lists of Unicode codepoints. -/
abbrev PyStr := List Nat

/-- Convert a Lean string literal to the codepoint representation. -/
def s2c (s : String) : PyStr := s.data.map Char.toNat

/-- Predicate `pfx p s` : `p` is a prefix of `s` (Python `s.startswith(p)`). -/
def pfx : PyStr → PyStr → Bool
  | [], _ => true
  | _ :: _, [] => false
  | a :: as, b :: bs => a = b && pfx as bs

/-- Predicate `sfx p s` : `p` is a suffix of `s` (Python `s.endswith(p)`). -/
def sfx (p s : PyStr) : Bool := pfx p.reverse s.reverse

/-- Predicate `hasSub p s` : `p` occurs as a contiguous substring of `s` (Python `p in s`). -/
def hasSub (p : PyStr) : PyStr → Bool
  | [] => pfx p []
  | c :: rest => pfx p (c :: rest) || hasSub p rest

/-- If `p` is a prefix of `s`, return the remainder of `s` after `p`. -/
def stripPfx : PyStr → PyStr → Option PyStr
  | [], s => some s
  | _ :: _, [] => none
  | a :: as, b :: bs => if a = b then stripPfx as bs else none

/-! ### Character classes and case mapping (ASCII model of Python `str` methods) -/

/-- ASCII lowercase letter. -/
def isLowerCp (c : Nat) : Bool := 97 ≤ c && c ≤ 122

/-- ASCII uppercase letter. -/
def isUpperCp (c : Nat) : Bool := 65 ≤ c && c ≤ 90

/-- ASCII letter (model of Python's "cased"/alphabetic test for the ASCII range). -/
def isAlphaCp (c : Nat) : Bool := isLowerCp c || isUpperCp c

/-- ASCII digit. -/
def isDigitCp (c : Nat) : Bool := 48 ≤ c && c ≤ 57

/-- Word character for the regex `\b` boundary (`[A-Za-z0-9_]`). -/
def isWordCp (c : Nat) : Bool := isAlphaCp c || isDigitCp c || c = 95

/-- Whitespace stripped by Python `str.strip()` (ASCII part). -/
def isWsCp (c : Nat) : Bool := c = 32 || c = 9 || c = 10 || c = 13 || c = 11 || c = 12

/-- Lowercase one codepoint. -/
def lowerCp (c : Nat) : Nat := if isUpperCp c then c + 32 else c

/-- Uppercase one codepoint. -/
def upperCp (c : Nat) : Nat := if isLowerCp c then c - 32 else c

/-- Python `str.lower()` (ASCII model). -/
def pyLower (s : PyStr) : PyStr := s.map lowerCp

/-- Python `str.upper()` (ASCII model). -/
def pyUpper (s : PyStr) : PyStr := s.map upperCp

/-- Python `str.strip()`: drop leading and trailing whitespace. -/
def pyStrip (s : PyStr) : PyStr :=
  ((s.dropWhile (fun c => isWsCp c)).reverse.dropWhile (fun c => isWsCp c)).reverse

/-- Character transformation of Python `str.title()`: a cased character
after a non-cased one (`prev = false`) is uppercased, any other cased
character is lowercased, anything else is unchanged. -/
def titleMap (prev : Bool) (c : Nat) : Nat :=
  if isAlphaCp c then (if prev then lowerCp c else upperCp c) else c

/-- Inner loop of Python `str.title()`: `prev` records whether the previous
character was cased. -/
def pyTitleAux (prev : Bool) : PyStr → PyStr
  | [] => []
  | c :: rest => titleMap prev c :: pyTitleAux (isAlphaCp c) rest

/-- Python `str.title()` (ASCII model). -/
def pyTitle (s : PyStr) : PyStr := pyTitleAux false s

/-- Fueled worker for `pyReplace`; the fuel bounds the length of the remaining
string so the definition is structurally recursive and kernel-reducible. -/
def pyReplaceAux (pat rep : PyStr) : Nat → PyStr → PyStr
  | _, [] => []
  | 0, s => s
  | fuel + 1, c :: rest =>
    match stripPfx pat (c :: rest) with
    | some r => if pat.isEmpty then c :: pyReplaceAux pat rep fuel rest
                else rep ++ pyReplaceAux pat rep fuel r
    | none => c :: pyReplaceAux pat rep fuel rest

/-- Python `str.replace(pat, rep)`: replace every non-overlapping occurrence,
scanning left to right. -/
def pyReplace (pat rep s : PyStr) : PyStr := pyReplaceAux pat rep s.length s

/-- Fueled worker for `pySplit`. -/
def pySplitAux (sep : PyStr) : Nat → PyStr → PyStr → List PyStr
  | _, acc, [] => [acc.reverse]
  | 0, acc, s => [acc.reverse ++ s]
  | fuel + 1, acc, c :: rest =>
    match stripPfx sep (c :: rest) with
    | some r => acc.reverse :: pySplitAux sep fuel [] r
    | none => pySplitAux sep fuel (c :: acc) rest

/-- Python `str.split(sep)` with a non-empty separator: keeps empty fields. -/
def pySplit (sep s : PyStr) : List PyStr := pySplitAux sep s.length [] s

/-- Python `sep.join(xs)`. -/
def pyJoin (sep : PyStr) : List PyStr → PyStr
  | [] => []
  | [x] => x
  | x :: y :: rest => x ++ sep ++ pyJoin sep (y :: rest)

example : pyLower (s2c "AbC") = s2c "abc" := by decide
example : pyStrip (s2c "  a b\t") = s2c "a b" := by decide
example : pyTitle (s2c "jean DUPONT x1y") = s2c "Jean Dupont X1Y" := by decide
example : pyReplace (s2c "  ") (s2c " ") (s2c "a     b") = s2c "a   b" := by decide
example : pySplit (s2c " - ") (s2c "a - b - c") = [s2c "a", s2c "b", s2c "c"] := by decide
example : pyJoin (s2c ";") [s2c "a", s2c "b"] = s2c "a;b" := by decide

/-! ### Regex engines used by vcardlib (translated to deterministic scanners)

The patterns appearing in the claims' code paths are simple enough that the
backtracking regexes are equivalent to deterministic scanners; each scanner
below documents the pattern it implements. -/

/-- Split `s` at the first occurrence of the codepoint `stop`: returns the
part before it and the part after it. -/
def takeUntil (stop : Nat) : PyStr → Option (PyStr × PyStr)
  | [] => none
  | c :: r =>
    if c = stop then some ([], r)
    else match takeUntil stop r with
         | some (a, b) => some (c :: a, b)
         | none => none

/-- Anchored match of `REGEX_ANYTHING_BETWEEN_PARENTH_OR_BRACES`
(vcardlib.py:44, pattern ` *(\([^)]*\)|\[[^]]*\]) *`) at the start of `s`.
On success returns the captured group (brackets included, surrounding spaces
excluded) and the rest of the string after the whole match. -/
def bracketTryAt (s : PyStr) : Option (PyStr × PyStr) :=
  match s.dropWhile (fun c => c = 32) with
  | 40 :: r =>
    match takeUntil 41 r with
    | some (inner, rest) => some ((40 :: inner) ++ [41], rest.dropWhile (fun c => c = 32))
    | none => none
  | 91 :: r =>
    match takeUntil 93 r with
    | some (inner, rest) => some ((91 :: inner) ++ [93], rest.dropWhile (fun c => c = 32))
    | none => none
  | _ => none

/-- Model of `REGEX_ANYTHING_BETWEEN_PARENTH_OR_BRACES.search`: first captured group. -/
def bracketSearch : PyStr → Option PyStr
  | [] => none
  | c :: rest =>
    match bracketTryAt (c :: rest) with
    | some (g, _) => some g
    | none => bracketSearch rest

/-- Fueled worker for `bracketSub`. -/
def bracketSubAux : Nat → PyStr → PyStr
  | _, [] => []
  | 0, s => s
  | fuel + 1, c :: rest =>
    match bracketTryAt (c :: rest) with
    | some (_, after) => bracketSubAux fuel after
    | none => c :: bracketSubAux fuel rest

/-- Model of `REGEX_ANYTHING_BETWEEN_PARENTH_OR_BRACES.sub('', s)`: remove every
bracketed segment together with its surrounding spaces. -/
def bracketSub (s : PyStr) : PyStr := bracketSubAux s.length s

/-- Model of `len_without_parenth_or_braces` (vcardlib.py:256-262). -/
def len_without_parenth_or_braces (s : PyStr) : Nat := (bracketSub s).length

/-- Model of `len_without_index` (vcardlib.py:265-271): length after stripping a
trailing `(n)` numeric index (`REGEX_ANYTHING_BUT_INDEX`, pattern
`(.*)\([0-9]+\)$`). -/
def len_without_index (s : PyStr) : Nat :=
  match s.reverse with
  | 41 :: r =>
    match r.dropWhile (fun c => isDigitCp c), r.takeWhile (fun c => isDigitCp c) with
    | 40 :: rest2, _ :: _ => rest2.length
    | _, _ => s.length
  | _ => s.length

/-- Anchored match of `REGEX_ICE` (vcardlib.py:46, pattern `\b(ICE[0-9]*)\b`,
case-insensitive) at the start of `s`; `prevWord` says whether the character
before `s` in the scanned string is a word character (which would defeat the
leading `\b`).  Returns the rest after the match. -/
def iceMatchAt (prevWord : Bool) (s : PyStr) : Option PyStr :=
  if prevWord then none
  else match s with
  | a :: b :: c :: r =>
    if lowerCp a = 105 && lowerCp b = 99 && lowerCp c = 101 then
      match r.dropWhile (fun d => isDigitCp d) with
      | [] => some []
      | d :: rest => if isWordCp d then none else some (d :: rest)
    else none
  | _ => none

/-- Fueled worker for `iceSub`. -/
def iceSubAux : Nat → Bool → PyStr → PyStr
  | _, _, [] => []
  | 0, _, s => s
  | fuel + 1, prevWord, c :: rest =>
    match iceMatchAt prevWord (c :: rest) with
    | some after => iceSubAux fuel true after
    | none => c :: iceSubAux fuel (isWordCp c) rest

/-- Model of `REGEX_ICE.sub('', s)`: remove every `ICE[0-9]*` word. -/
def iceSub (s : PyStr) : PyStr := iceSubAux s.length false s

/-- Match of `REGEX_NAME_IN_EMAIL` (vcardlib.py:50, pattern
`^ *"(?P<name>[^"]+)" *<[^>]+> *$`): captures the display name. -/
def matchNameInEmail (s : PyStr) : Option PyStr :=
  match s.dropWhile (fun c => c = 32) with
  | 34 :: r2 =>
    match takeUntil 34 r2 with
    | some (nm, r3) =>
      if nm.isEmpty then none
      else
        match r3.dropWhile (fun c => c = 32) with
        | 60 :: r5 =>
          match takeUntil 62 r5 with
          | some (a, r6) =>
            if a.isEmpty then none
            else if (r6.dropWhile (fun c => c = 32)).isEmpty then some nm else none
          | none => none
        | _ => none
    | none => none
  | _ => none

/-- Match of `REGEX_EMAIL_WITH_NAME` (vcardlib.py:51, pattern
`^ *"[^"]+" *<(?P<email>[^>]+)> *$`): captures the address between `<` `>`. -/
def matchEmailWithName (s : PyStr) : Option PyStr :=
  match s.dropWhile (fun c => c = 32) with
  | 34 :: r2 =>
    match takeUntil 34 r2 with
    | some (nm, r3) =>
      if nm.isEmpty then none
      else
        match r3.dropWhile (fun c => c = 32) with
        | 60 :: r5 =>
          match takeUntil 62 r5 with
          | some (addr, r6) =>
            if addr.isEmpty then none
            else if (r6.dropWhile (fun c => c = 32)).isEmpty then some addr else none
          | none => none
        | _ => none
    | none => none
  | _ => none

example : bracketSub (s2c "ab (x) c") = s2c "abc" := by decide
example : bracketSearch (s2c "ab (x) c") = some (s2c "(x)") := by decide
example : iceSub (s2c "a Ice2 b") = s2c "a  b" := by decide
example : iceSub (s2c "Icecream") = s2c "Icecream" := by decide
example : len_without_index (s2c "Bob(2)") = 3 := by decide
example : matchNameInEmail (s2c " \x22Jean Dupont\x22 <jean@d.fr> ") = some (s2c "Jean Dupont") := by
  decide
example : matchEmailWithName (s2c "\x22a\x22 < j@d >") = some (s2c " j@d ") := by decide

/-! ### fuzzywuzzy `token_sort_ratio`

Used by `sanitize_name` (vcardlib.py:251) through the `== 100` test only.
Both operands are run through `full_process` (non-alphanumeric characters
other than `_` replaced by spaces, lowercased, stripped), split into
whitespace tokens, sorted, re-joined with single spaces, and compared with
the normalized indel (Levenshtein with substitution cost 2) similarity ×100.
The score is 100 exactly when the two processed token lists coincide (for
combined length < 200). -/

/-- Fueled worker for `pySplitWs`. -/
def pySplitWsAux : Nat → PyStr → List PyStr
  | _, [] => []
  | 0, _ => []
  | fuel + 1, c :: r =>
    if isWsCp c then pySplitWsAux fuel r
    else (c :: r.takeWhile (fun d => !isWsCp d))
           :: pySplitWsAux fuel (r.dropWhile (fun d => !isWsCp d))

/-- Python `str.split()` with no argument: whitespace runs, no empty fields. -/
def pySplitWs (s : PyStr) : List PyStr := pySplitWsAux s.length s

/-- Codepoint-lexicographic comparison of strings (Python `<=` on `str`). -/
def lexLe : PyStr → PyStr → Bool
  | [], _ => true
  | _ :: _, [] => false
  | a :: as, b :: bs => a < b || (a = b && lexLe as bs)

/-- Stable insertion into a sorted list. -/
def insSorted (x : PyStr) : List PyStr → List PyStr
  | [] => [x]
  | y :: r => if lexLe x y then x :: y :: r else y :: insSorted x r

/-- Python `sorted` on a list of strings. -/
def sortStrs : List PyStr → List PyStr
  | [] => []
  | x :: r => insSorted x (sortStrs r)

/-- fuzzywuzzy `full_process`: replace every character that is not a letter,
digit or underscore by a space, lowercase, strip. -/
def fullProcess (s : PyStr) : PyStr :=
  pyStrip (pyLower (s.map (fun c => if isWordCp c then c else 32)))

/-- Fueled indel distance (Levenshtein with substitutions counted as
delete + insert, the metric of `Levenshtein.ratio`). -/
def levIndelAux : Nat → PyStr → PyStr → Nat
  | _, [], b => b.length
  | _, a :: as, [] => (a :: as).length
  | 0, a, b => a.length + b.length
  | fuel + 1, x :: a, y :: b =>
    if x = y then levIndelAux fuel a b
    else 1 + min (levIndelAux fuel (x :: a) b) (levIndelAux fuel a (y :: b))

/-- Indel distance between two strings. -/
def levIndel (a b : PyStr) : Nat := levIndelAux (a.length + b.length) a b

/-- Model of `fuzz.ratio`: rounded percentage similarity.  (Python rounds halves to
even; this model rounds halves up — the two agree everywhere the program
compares the score with 100.) -/
def fuzzRatio (a b : PyStr) : Nat :=
  let lensum := a.length + b.length
  if lensum = 0 then 100
  else (200 * (lensum - levIndel a b) + lensum) / (2 * lensum)

/-- fuzzywuzzy `token_sort_ratio`. -/
def token_sort_ratio (a b : PyStr) : Nat :=
  let pa := pyJoin (s2c " ") (sortStrs (pySplitWs (fullProcess a)))
  let pb := pyJoin (s2c " ") (sortStrs (pySplitWs (fullProcess b)))
  fuzzRatio pa pb

example : token_sort_ratio (s2c "Dupont Jean") (s2c "Jean Dupont") = 100 := by decide

/-! ### `sanitize_name` and name helpers -/

/-- Model of `sanitize_name` (vcardlib.py:220-253): remove `ICE` words, turn dots into
spaces, collapse double spaces (twice), trim, title-case; when the original
name has a bracketed segment whose content title-cases to the same text as
the rest, the result is the bracket-free text instead. -/
def sanitize_name (name : PyStr) : PyStr :=
  let sanitized := pyTitle (pyStrip (pyReplace (s2c "  ") (s2c " ")
    (pyReplace (s2c "  ") (s2c " ") (pyReplace (s2c ".") (s2c " ") (iceSub name)))))
  match bracketSearch name with
  | none => sanitized
  | some g =>
    let inner := pyTitle ((pyStrip g).filter (fun c => !(c = 40 || c = 41 || c = 91 || c = 93)))
    let outer := pyTitle (pyStrip (bracketSub name))
    if inner = outer || token_sort_ratio inner outer = 100 then outer else sanitized

example : sanitize_name (s2c "jean.claude  DUPONT") = s2c "Jean Claude Dupont" := by decide
example : sanitize_name (s2c "Marie (ICE1) Martin") = s2c "Marie () Martin" := by decide
example : sanitize_name (s2c "Jean (jean)") = s2c "Jean" := by decide

/-! ### `select_most_relevant_name`, `build_formatted_name`, `set_name` -/

/-- Python exceptions raised by the embedded functions. -/
inductive PyErr
  | typeError
  | valueError
  | runtimeError
  | keyError
deriving DecidableEq, Repr

/-- The `for name in names` loop of `select_most_relevant_name`
(vcardlib.py:381-403).  An empty candidate hits `continue` (line 383); a
non-empty candidate falls into the `else: raise TypeError` branch (line 385),
so the length comparisons of lines 386-403 are dead code and `selected_name`
can never be set.  When the loop finishes (all candidates empty),
`selected_name` is still `None` and line 407 raises `RuntimeError`. -/
def selectLoop : List PyStr → Except PyErr PyStr
  | [] => .error .runtimeError
  | name :: rest => if name.isEmpty then selectLoop rest else .error .typeError

/-- Model of `select_most_relevant_name` (vcardlib.py:368-412).  An empty list raises
`ValueError` (line 374); otherwise the loop of `selectLoop` runs. -/
def select_most_relevant_name (names : List PyStr) : Except PyErr PyStr :=
  if names.isEmpty then .error .valueError else selectLoop names

/-- Structured `N` value (vobject `Name` with the fields vcardlib uses). -/
structure NameV where
  family : PyStr
  given : PyStr
  suffix : Option PyStr
deriving DecidableEq, Repr

/-- Model of `build_formatted_name` (vcardlib.py:274-311).  `french` is the global
`OPTION_FRENCH_TWEAKS`. -/
def build_formatted_name (french : Bool) (name : PyStr) : NameV :=
  let nameSuffix : Option PyStr :=
    match bracketSearch name with
    | some g => some (pyStrip g)
    | none => none
  let name1 := if (bracketSearch name).isSome then bracketSub name else name
  let (fam, giv) :=
    if hasSub (s2c " - ") name1 then
      let parts := pySplit (s2c " - ") name1
      (parts.headD [], pyJoin (s2c " ") parts.tail)
    else if french && hasSub (s2c " de ") (pyLower name1) then
      let parts := pySplit (s2c " de ") (pyLower name1)
      (s2c "De " ++ parts.headD [], pyJoin (s2c " ") parts.tail)
    else
      let parts := pySplit (s2c " ") name1
      (parts.getLastD [], pyJoin (s2c " ") parts.dropLast)
  { family := fam, given := giv,
    suffix := match nameSuffix with
              | some sfxv => if sfxv.isEmpty then none else some sfxv
              | none => none }

example : build_formatted_name false (s2c "Jean Claude Dupont")
  = { family := s2c "Dupont", given := s2c "Jean Claude", suffix := none } := by decide
example : build_formatted_name true (s2c "Charles de Gaulle")
  = { family := s2c "De charles", given := s2c "gaulle", suffix := none } := by decide

/-- Serialization of a `NameV` used where Python calls `str` on a vobject
`Name` (space-joined non-empty components). -/
def nameVStr (n : NameV) : PyStr :=
  pyJoin (s2c " ") (((n.family :: n.given :: (match n.suffix with
    | some sfxv => [sfxv]
    | none => [])).filter (fun p => !p.isEmpty)))

/-- Aggregated attributes mapping for `set_name`: property name → list of the
`.value` strings of its collected instances (`n` values already stringified,
as `set_name` line 342 applies `str`). -/
abbrev Attrs := List (PyStr × List PyStr)

/-- First-match association lookup (Python dict access). -/
def alookup (k : PyStr) : List (PyStr × α) → Option α
  | [] => none
  | (k1, v) :: rest => if k1 = k then some v else alookup k rest

/-- Remove a key from an association list (Python `del d[k]`). -/
def adel (k : PyStr) (l : List (PyStr × α)) : List (PyStr × α) :=
  l.filter (fun p => p.1 ≠ k)

/-- Model of `if not name in available_names: available_names.append(name)`. -/
def addIfAbsent (x : PyStr) (l : List PyStr) : List PyStr :=
  if x ∈ l then l else l ++ [x]

/-- Model of `set_name` (vcardlib.py:314-365): collect candidate names from `fn`, `n`
and the `"display" <addr>` form of `email`, select one, then replace the
`fn`/`n` entries.  Because `select_most_relevant_name` never returns, the
code after it (lines 360-365, including the `del attributes['fn']` that
raises `KeyError` when the key is absent) is unreachable; it is nevertheless
translated below, with the scalar `fn` value and the `Name` object that
Python would store represented as singleton lists in the `Attrs` value
type. -/
def set_name (french : Bool) (attributes : Attrs) : Except PyErr Attrs :=
  let fromFn := ((alookup (s2c "fn") attributes).getD []).foldl
    (fun acc v => addIfAbsent (sanitize_name v) acc) []
  let fromN := ((alookup (s2c "n") attributes).getD []).foldl
    (fun acc v => addIfAbsent (sanitize_name v) acc) fromFn
  let availableNames := ((alookup (s2c "email") attributes).getD []).foldl
    (fun acc v =>
      match matchNameInEmail (pyStrip v) with
      | some nm => addIfAbsent (sanitize_name nm) acc
      | none => acc) fromN
  match select_most_relevant_name availableNames with
  | .error e => .error e
  | .ok selectedName =>
    if (alookup (s2c "fn") attributes).isNone then .error .keyError
    else if (alookup (s2c "n") attributes).isNone then .error .keyError
    else .ok ((adel (s2c "n") (adel (s2c "fn") attributes))
      ++ [(s2c "fn", [selectedName]),
          (s2c "n", [nameVStr (build_formatted_name french selectedName)])])

/-! ### `normalize` (vcardlib.py:636-755)

The record model keeps the properties `normalize` reads or writes: `VERSION`,
`FN`, `N`, `EMAIL`, `TEL`, `NOTE` (all other properties pass through the
function untouched).  Each field is the ordered list of the instances' values.
The options `do_not_overwrite_names`, `mv_name_parenth_braces_to_note` and
`do_not_remove_name_in_email` are fixed at their default `False` (the claims
under audit all use default options), so the branch bodies guarded by them
(lines 681-688 run, 702-724 skipped, 740 condition reduces to the match test);
`french` is the global `OPTION_FRENCH_TWEAKS`. -/

structure VCardN where
  version : List PyStr
  fn : List PyStr
  n : List NameV
  email : List PyStr
  tel : List PyStr
  note : List PyStr
deriving DecidableEq, Repr

/-- Model of `normalize` with default options.  Step order follows the source:
remove `VERSION` (lines 676-678), delete and re-add `FN`/`N`
(lines 681-699), normalize `EMAIL` (lines 727-744), normalize `TEL`
(lines 747-753). -/
def normalize (french : Bool) (selectedName : PyStr) (v : VCardN) : VCardN :=
  let fn1 : List PyStr := []
  let n1 : List NameV := []
  let fn2 := if fn1.isEmpty then [selectedName] else fn1
  let n2 := if n1.isEmpty then [build_formatted_name french selectedName] else n1
  let email2 := v.email.filterMap (fun e =>
    let e1 := pyLower (pyStrip e)
    if sfx (s2c "@nowhere.invalid") e1 then none
    else match matchEmailWithName e1 with
         | some addr => some addr
         | none => some e1)
  let tel2 := v.tel.map (fun t =>
    let t1 := pyReplace (s2c " ") [] (pyStrip t)
    if french then
      (if pfx (s2c "+33") t1 then pyReplace (s2c "+33") (s2c "0") t1 else t1)
    else t1)
  { version := [], fn := fn2, n := n2, email := email2, tel := tel2, note := v.note }

example :
    normalize false (s2c "Al")
      { version := [s2c "2.1"], fn := [s2c "AL", s2c "al"], n := [],
        email := [s2c " Bob@X.com ", s2c "nobody3@nowhere.invalid"],
        tel := [s2c "06 12 34"], note := [] }
    = { version := [], fn := [s2c "Al"],
        n := [{ family := s2c "Al", given := [], suffix := none }],
        email := [s2c "bob@x.com"], tel := [s2c "061234"], note := [] } := by decide

/-! ### `merge` (vcardlib.py:882-903)

For `merge` a record is its vobject `contents`: an insertion-ordered mapping
property name → list of instances, each instance a value with parameters.
The external library's name normalization (`ContentLine.name` vs. the
`contents` key, spec §1 treats the tokenizer as an external collaborator
with a generic property model) is abstracted away: a property is identified
by one canonical name in both the mapping key and its children. -/

/-- One property instance (a vobject `ContentLine`): value and parameters. -/
structure Inst where
  value : PyStr
  params : List (PyStr × List PyStr)
deriving DecidableEq, Repr

/-- A record as its ordered `contents` mapping. -/
abbrev VCardM := List (PyStr × List Inst)

/-- Model of `vcard.add(name)` followed by setting value and params: append an
instance to the property's list (creating the entry at the end if new). -/
def addInst (name : PyStr) (i : Inst) : VCardM → VCardM
  | [] => [(name, [i])]
  | (k, l) :: rest =>
    if k = name then (k, l ++ [i]) :: rest else (k, l) :: addInst name i rest

/-- Model of `vcard.getChildren()`: every instance of every property, in contents
order; only the `name` of each child is consumed by `merge`. -/
def childNames (v : VCardM) : List PyStr :=
  v.flatMap (fun p => p.2.map (fun _ => p.1))

/-- Model of `merge(vcard, *vcards_to_merge)` (vcardlib.py:882-903): for every child of
a record to merge, re-iterate that record's whole instance list for the
child's property name and append each instance (value and params) to the
base record. -/
def merge (vcard : VCardM) (vcardsToMerge : List VCardM) : VCardM :=
  vcardsToMerge.foldl (fun base other =>
    (childNames other).foldl (fun b childName =>
      ((alookup childName other).getD []).foldl
        (fun b2 attr => addInst childName attr b2) b) base) vcard

/-! ### Group mappings and `group_keys` (vcardlib.py:1297-1387) -/

/-- Insert-or-update for an insertion-ordered dict: an existing key keeps its
position, a new key is appended. -/
def aset (k : PyStr) (v : α) : List (PyStr × α) → List (PyStr × α)
  | [] => [(k, v)]
  | (k1, v1) :: rest => if k1 = k then (k1, v) :: rest else (k1, v1) :: aset k v rest

/-- The `groups` and `vcard_group` dicts of the grouper (vcardlib.py:1402).
`vcard_group` values can be `None` (line 1384 stores `selected_group`, which
is `None` when both keys were ungrouped and no branch ran). -/
structure Mappings where
  groups : List (PyStr × List PyStr)
  vcard_group : List (PyStr × Option PyStr)
deriving DecidableEq, Repr

/-- Initially empty mappings. -/
def emptyMappings : Mappings := { groups := [], vcard_group := [] }

/-- Move loop of the merge-groups branch (vcardlib.py:1375-1377): for each
member of the source group, point its `vcard_group` entry at the destination
and append it to the destination's member list; the dict access
`mappings['groups'][dest]` raises `KeyError` when absent, after the
`vcard_group` entry was already written. -/
def moveMembers (dest : PyStr) : List PyStr → Mappings → Mappings × Option PyErr
  | [], mm => (mm, none)
  | k :: rest, mm =>
    let mm1 := { mm with vcard_group := aset k (some dest) mm.vcard_group }
    match alookup dest mm1.groups with
    | none => (mm1, some .keyError)
    | some dl =>
      moveMembers dest rest { mm1 with groups := aset dest (dl ++ [k]) mm1.groups }

/-- Model of `group_keys` (vcardlib.py:1297-1387), as a state transformation: the
returned `Mappings` is the caller's dict at function exit (normal or
exceptional, since Python mutates it in place), and the `Except` value is
the returned selected group or the exception.  `updateGroupKey` is the
global `OPTION_UPDATE_GROUP_KEY`. -/
def group_keys (updateGroupKey : Bool) (m : Mappings) (key1 key2 : PyStr)
    (group1 group2 : Option PyStr) : Mappings × Except PyErr (Option PyStr) :=
  if key1 ≠ key2 ∧ (group1 ≠ group2 ∨ (group1 = none ∧ group2 = none)) then
    if group1 = none ∧ group2 = none then
      -- lines 1326-1338: create a new group
      match select_most_relevant_name [key1, key2] with
      | .error e => (m, .error e)
      | .ok newGroupKey =>
        if (alookup newGroupKey m.groups).isSome then (m, .error .runtimeError)
        else
          let m1 := { m with groups := aset newGroupKey [key1, key2] m.groups }
          let sel := some newGroupKey
          ({ m1 with vcard_group := aset key2 sel (aset key1 sel m1.vcard_group) }, .ok sel)
    else if group1.isSome ∧ group2 = none ∨ group1 = none ∧ group2.isSome then
      -- lines 1341-1364: one key joins the other's group
      let exitingGroup := match group1 with
                          | some g => g
                          | none => group2.getD []
      let vcardToAdd := if group1.isSome then key2 else key1
      match alookup exitingGroup m.groups with
      | none => (m, .error .keyError)
      | some members =>
        let m1 := { m with groups := aset exitingGroup (members ++ [vcardToAdd]) m.groups }
        match select_most_relevant_name [exitingGroup, vcardToAdd] with
        | .error e => (m1, .error e)
        | .ok newGroupKey =>
          if newGroupKey ≠ exitingGroup ∧ updateGroupKey then
            let memList := (alookup exitingGroup m1.groups).getD []
            let m2 := { m1 with groups := adel exitingGroup (aset newGroupKey memList m1.groups) }
            let vg3 := memList.foldl (fun vg k => aset k (some newGroupKey) vg) m2.vcard_group
            let m3 := { m2 with vcard_group := vg3 }
            let sel := some newGroupKey
            ({ m3 with vcard_group := aset key2 sel (aset key1 sel m3.vcard_group) }, .ok sel)
          else
            let sel := some exitingGroup
            ({ m1 with vcard_group := aset key2 sel (aset key1 sel m1.vcard_group) }, .ok sel)
    else
      -- lines 1367-1381: merge the two distinct groups
      match group1, group2 with
      | some g1, some g2 =>
        match select_most_relevant_name [g1, g2] with
        | .error e => (m, .error e)
        | .ok destGroupKey =>
          let otherGroupKey := if destGroupKey ≠ g1 then g1 else g2
          match alookup otherGroupKey m.groups with
          | none => (m, .error .keyError)
          | some others =>
            match moveMembers destGroupKey others m with
            | (mm, some e) => (mm, .error e)
            | (mm, none) =>
              let m1 := { mm with groups := adel otherGroupKey mm.groups }
              let sel := some destGroupKey
              ({ m1 with vcard_group := aset key2 sel (aset key1 sel m1.vcard_group) }, .ok sel)
      | _, _ => (m, .error .runtimeError)
  else
    -- no grouping required: lines 1384-1385 still update both entries
    let sel := group1
    ({ m with vcard_group := aset key2 sel (aset key1 sel m.vcard_group) }, .ok sel)

/-- The consistency invariant claimed for the group mapping:
`member_of[k] = g ⇔ k ∈ groups[g]`, and no record key in two groups. -/
def consistentB (m : Mappings) : Bool :=
  m.vcard_group.all (fun p => match p.2 with
    | some g => ((alookup g m.groups).getD []).contains p.1
    | none => true)
  && m.groups.all (fun gp => gp.2.all (fun k =>
       alookup k m.vcard_group = some (some gp.1)))
  && m.groups.all (fun gp => gp.2.all (fun k =>
       m.groups.all (fun gp2 => gp.1 = gp2.1 || !(gp2.2.contains k))))

/-! ### `collect_values`, `filter_values_by_param` and `get_vcards_groups`
(vcardlib.py:1098-1215, 1390-1546) -/

/-- A property value as seen by `collect_values`: a string, or a list of
strings (`ORG`).  `N` values are represented by their `str()` rendering,
which is what the source immediately applies to them (lines 1160, 1208). -/
inductive VVal
  | vstr (s : PyStr)
  | vlist (l : List PyStr)
deriving DecidableEq, Repr

/-- Property instance for the grouping model. -/
structure InstG where
  value : VVal
  params : List (PyStr × List PyStr)
deriving DecidableEq, Repr

/-- Record model for the grouper: the properties the default match
attributes (`names`, `tel_!work`, `email`) and their fallbacks touch. -/
structure VCardG where
  fn : List InstG
  n : List InstG
  email : List InstG
  tel : List InstG
  org : List InstG
deriving DecidableEq, Repr

/-- Model of `getattr(vcard, key + "_list")` for the modelled properties (an absent
property is an empty list: `hasattr` is the list being non-empty). -/
def getListG (v : VCardG) (k : PyStr) : List InstG :=
  if k = s2c "fn" then v.fn
  else if k = s2c "n" then v.n
  else if k = s2c "email" then v.email
  else if k = s2c "tel" then v.tel
  else if k = s2c "org" then v.org
  else []

/-- Python truthiness of a value. -/
def VVal.truthy : VVal → Bool
  | .vstr s => !s.isEmpty
  | .vlist l => !l.isEmpty

/-- Model of `str(value)` for the modelled values (`ORG` lists do not reach this in
the translated paths). -/
def VVal.str : VVal → PyStr
  | .vstr s => s
  | .vlist l => pyJoin (s2c ", ") l

/-- Fueled worker for `collapseSpaceRuns`. -/
def collapseSpaceRunsAux : Nat → PyStr → PyStr
  | _, [] => []
  | 0, s => s
  | fuel + 1, c :: rest =>
    if c = 32 then 32 :: collapseSpaceRunsAux fuel (rest.dropWhile (fun d => d = 32))
    else c :: collapseSpaceRunsAux fuel rest

/-- Model of `re.sub(' +', ' ', s)` (vcardlib.py:1160, 1208). -/
def collapseSpaceRuns (s : PyStr) : PyStr := collapseSpaceRunsAux s.length s

/-- Shared value rendering of `collect_values`/`filter_values_by_param`:
`n` values have space runs collapsed and are stripped, `org` list values
contribute each stripped element, anything else is stripped. -/
def renderValues (k : PyStr) (val : VVal) : List PyStr :=
  if k = s2c "n" then [pyStrip (collapseSpaceRuns val.str)]
  else match val with
       | .vlist l => if k = s2c "org" then l.map pyStrip else [pyStrip val.str]
       | .vstr s => [pyStrip s]

/-- Model of `str(attr.params.get(param_key))`: Python `repr` of the parameter list,
or `None` when absent. -/
def pyReprParam : Option (List PyStr) → PyStr
  | none => s2c "None"
  | some l => s2c "[" ++ pyJoin (s2c ", ") (l.map (fun x => s2c "\x27" ++ x ++ s2c "\x27"))
      ++ s2c "]"

/-- Model of `filter_values_by_param` (vcardlib.py:1169-1215): keep the values whose
stringified `TYPE` parameter list equals `['<TYPE>']` (case folded), or the
complement when the filter starts with `!`. -/
def filter_values_by_param (v : VCardG) (key : PyStr) (paramKey : PyStr)
    (paramValue : PyStr) : List PyStr :=
  let exclude := pfx (s2c "!") paramValue
  let pv := if exclude then paramValue.tail else paramValue
  let pvU := pyUpper pv
  (getListG v key).flatMap (fun attr =>
    let isMatch := pyUpper (pyReprParam (alookup paramKey attr.params))
      = s2c "[\x27" ++ pvU ++ s2c "\x27]"
    let append := if isMatch then !exclude else exclude
    if append then renderValues key attr.value else [])

/-- Model of `is_a_mobile_phone` (vcardlib.py:1098-1104). -/
def is_a_mobile_phone (number : PyStr) : Bool :=
  pfx (s2c "06") number || pfx (s2c "07") number

/-- Model of `collect_values(vcard, key)` for a single attribute spec
(vcardlib.py:1107-1166): the `names` alias expands to `fn` and `n`, a key
containing `_` filters by `TYPE`, `mobiles` filters `tel` by
`is_a_mobile_phone`, otherwise all values of the property are rendered.
The result is `set(values)`, modelled as first-occurrence deduplication in
insertion order (CPython sets do not guarantee this order; no claim under
audit depends on it). -/
def collect_values (v : VCardG) (key : PyStr) : List PyStr :=
  let keys := if key = s2c "names" then [s2c "names", s2c "fn", s2c "n"] else [key]
  let vals := keys.flatMap (fun k =>
    if hasSub (s2c "_") k then
      -- `k_name, k_type = key.rsplit("_")` (a spec with two or more `_`
      -- would make Python's unpacking raise; keys in use have exactly one)
      let parts := pySplit (s2c "_") k
      filter_values_by_param v (parts.headD []) (s2c "TYPE") (parts.getLastD [])
    else if k = s2c "mobiles" then
      (getListG v (s2c "tel")).flatMap (fun tel =>
        if is_a_mobile_phone (pyStrip tel.value.str) then [pyStrip tel.value.str] else [])
    else if k = s2c "names" then []
    else
      (getListG v k).flatMap (fun attr =>
        if attr.value.truthy then renderValues k attr.value else []))
  vals.foldl (fun acc x => addIfAbsent x acc) []

/-- The `vcard_group` local variable of the phase-1 loop: `None`, a group
key string, or — through the bug at vcardlib.py:1411, which reads
`mappings['groups'][key]` instead of `mappings['vcard_group'][key]` — a
member *list*, which the type check at line 1311 rejects with `TypeError`
at the first `group_keys` call. -/
inductive GVar
  | grp (g : Option PyStr)
  | badList (l : List PyStr)
deriving DecidableEq, Repr

/-- Per-value step of the phase-1 loop (vcardlib.py:1427-1467). -/
def phase1Value (updateGroupKey : Bool) (key aKey : PyStr)
    (st : Mappings × List (PyStr × List (PyStr × List PyStr)) × GVar) (aValue : PyStr) :
    Except PyErr (Mappings × List (PyStr × List (PyStr × List PyStr)) × GVar) :=
  let (m, idx, gv) := st
  let valMap := (alookup aKey idx).getD []
  match alookup aValue valMap with
  | none => .ok (m, aset aKey (aset aValue [key] valMap) idx, gv)
  | some klist =>
    if key ∈ klist then .ok (m, idx, gv)
    else if klist.isEmpty then .error .runtimeError
    else
      let klist1 := klist ++ [key]
      let idx1 := aset aKey (aset aValue klist1 valMap) idx
      let matchedKey := klist1.headD []
      if matchedKey.isEmpty then .error .runtimeError
      else
        let matchedGroup := match alookup matchedKey m.vcard_group with
                            | some og => og
                            | none => none
        match gv with
        | .badList (_ :: _) => .error .typeError
        | .badList [] =>
          -- an empty member list is falsy and passes the type check,
          -- behaving like `None`; unreachable (groups have two members)
          match group_keys updateGroupKey m key matchedKey none matchedGroup with
          | (_, .error e) => .error e
          | (m1, .ok sel) => .ok (m1, idx1, .grp sel)
        | .grp g =>
          match group_keys updateGroupKey m key matchedKey g matchedGroup with
          | (_, .error e) => .error e
          | (m1, .ok sel) => .ok (m1, idx1, .grp sel)

/-- Per-attribute step of the phase-1 loop (vcardlib.py:1414-1426). -/
def phase1Attr (updateGroupKey : Bool) (v : VCardG) (key : PyStr)
    (st : Mappings × List (PyStr × List (PyStr × List PyStr)) × GVar) (attr : PyStr) :
    Except PyErr (Mappings × List (PyStr × List (PyStr × List PyStr)) × GVar) :=
  let (m, idx, gv) := st
  let aKey := if hasSub (s2c "_") attr then (pySplit (s2c "_") attr).headD []
              else if attr = s2c "mobiles" then s2c "tel" else attr
  let aValues := collect_values v attr
  if aValues.isEmpty then .ok st
  else
    let idx0 := if (alookup aKey idx).isNone then aset aKey [] idx else idx
    aValues.foldlM (fun s av => phase1Value updateGroupKey key aKey s av) (m, idx0, gv)

/-- Model of `get_vcards_groups` (vcardlib.py:1390-1546) with fuzzy matching disabled
(`OPTION_NO_MATCH_APPROX = True`, so the phase-2 block at lines 1476-1537 is
skipped): returns the groups and the ungrouped keys, or the propagated
exception.  `matchAttributes` is `OPTION_MATCH_ATTRIBUTES`.  Line 1411 sets
the loop's `vcard_group` variable from `mappings['groups']` (not
`vcard_group`), captured by `GVar.badList`. -/
def get_vcards_groups (updateGroupKey : Bool) (matchAttributes : List PyStr)
    (vcards : List (PyStr × VCardG)) :
    Except PyErr (List (PyStr × List PyStr) × List PyStr) := do
  let st ← vcards.foldlM (fun (st : Mappings × List (PyStr × List (PyStr × List PyStr))) kv => do
    let (m, idx) := st
    let gv : GVar := match alookup kv.1 m.groups with
                     | some l => .badList l
                     | none => .grp none
    let (m1, idx1, _) ← matchAttributes.foldlM
      (fun s attr => phase1Attr updateGroupKey kv.2 kv.1 s attr) (m, idx, gv)
    pure (m1, idx1)) (emptyMappings, [])
  let m := st.1
  let notGrouped := (vcards.map (fun kv => kv.1)).filter
    (fun k => (alookup k m.vcard_group).isNone)
  pure (m.groups, notGrouped)

/-! ### `fix_and_convert_to_v3` (vcardlib.py:905-1095)

The function reads a file and returns the fixed text; the model takes the
file's content directly (reading is I/O).  The file is opened in `rU`
universal-newline mode, so iteration yields `\n`-terminated lines with
`\r\n`/`\r` already translated; the in-loop replacements of lines 948-954
are retained (they are no-ops after the translation). -/

/-- Split text into lines after each `\n`, keeping the `\n` (Python file
iteration). -/
def splitLinesKeep (acc : PyStr) : PyStr → List PyStr
  | [] => if acc.isEmpty then [] else [acc.reverse]
  | 10 :: r => (acc.reverse ++ [10]) :: splitLinesKeep [] r
  | c :: r => splitLinesKeep (c :: acc) r

/-- Model of `re.match(r'^([^: ]+):.*', line)`: a non-empty space-free run up to the
first colon. -/
def isKeyValue (s : PyStr) : Bool :=
  let pre := s.takeWhile (fun c => !(c = 58 || c = 32))
  match s.drop pre.length with
  | 58 :: _ => !pre.isEmpty
  | _ => false

/-- Model of `re.sub('([^\\\\]|^),', '\\1\\,', s)` (vcardlib.py:968, 999): escape a
comma after a non-backslash character, or at the very start of the string.
At each position the engine tries the `[^\\]` alternative before `^`, and
scanning resumes after each match, so a comma directly following an escaped
comma is left unescaped. -/
def escapeCommasAux (atStart : Bool) : PyStr → PyStr
  | [] => []
  | c :: rest =>
    match rest with
    | d :: rest2 =>
      if c ≠ 92 && d = 44 then c :: 92 :: 44 :: escapeCommasAux false rest2
      else if atStart && c = 44 then 92 :: 44 :: escapeCommasAux false (d :: rest2)
      else c :: escapeCommasAux false (d :: rest2)
    | [] => if atStart && c = 44 then [92, 44] else [c]

/-- Comma escaping applied to a whole string. -/
def escapeCommas (s : PyStr) : PyStr := escapeCommasAux true s

/-- The bare parameter tokens promoted to `TYPE=` (vcardlib.py:1016-1018). -/
def typeTokens : List PyStr :=
  [s2c "PGP", s2c "PNG", s2c "JPEG", s2c "GIF", s2c "OGG", s2c "INTERNET",
   s2c "PREF", s2c "HOME", s2c "WORK", s2c "MAIN", s2c "CELL", s2c "FAX",
   s2c "VOICE"]

/-- Fueled worker for `typePrefix`. -/
def typePrefixAux : Nat → PyStr → PyStr
  | _, [] => []
  | 0, s => s
  | fuel + 1, c :: rest =>
    if c = 59 then
      match typeTokens.findSome? (fun t => (stripPfx t rest).map (fun r => (t, r))) with
      | some (t, r) => (59 :: s2c "TYPE=" ++ t) ++ typePrefixAux fuel r
      | none => 59 :: typePrefixAux fuel rest
    else c :: typePrefixAux fuel rest

/-- Model of `re.sub(r';(PGP|PNG|JPEG|GIF|OGG|INTERNET|PREF|HOME|WORK|MAIN|CELL|FAX|VOICE)', ';TYPE=\1', s)`. -/
def typePrefix (s : PyStr) : PyStr := typePrefixAux s.length s

/-- Rewrite one `key:value` line whose key part contains `;`
(vcardlib.py:1004-1077).  The `fields` computation assumes the collapsed key
part still contains a `;` (true whenever the `TYPE=` test succeeds, since
`TYPE=` only appears after a `;`). -/
def fixCompoundKey (keyPart restPart : PyStr) : PyStr :=
  let keyPart2 := pyReplace (s2c "QUOTED-PRINTABLE;QUOTED-PRINTABLE")
    (s2c "QUOTED-PRINTABLE") keyPart
  let newKeyPart := typePrefix keyPart2
  if hasSub (s2c "TYPE=") newKeyPart then
    let keyValue := keyPart2.takeWhile (fun c => c ≠ 59)
    let fields := pySplit (s2c ";") (newKeyPart.drop ((newKeyPart.takeWhile (fun c => c ≠ 59)).length + 1))
    let typeList := fields.filterMap (fun f => stripPfx (s2c "TYPE=") f)
    let restList := fields.filterMap (fun f =>
      if (stripPfx (s2c "TYPE=") f).isSome then none
      else if f = s2c "ENCODING=BASE64" || f = s2c "ENCODING=B" then some (s2c "ENCODING=b")
      else if f = s2c "QUOTED-PRINTABLE" then some (s2c "ENCODING=QUOTED-PRINTABLE")
      else some f)
    let restList1 :=
      if (typeList.contains (s2c "JPEG") || typeList.contains (s2c "PNG")
            || typeList.contains (s2c "GIF"))
          && !restList.contains (s2c "ENCODING=b")
          && !restList.contains (s2c "VALUE=URI")
      then restList ++ [s2c "VALUE=URI"] else restList
    let restList2 :=
      if restList1.contains (s2c "ENCODING=QUOTED-PRINTABLE")
          && !hasSub (s2c "CHARSET=") (pyJoin (s2c ",") restList1)
      then restList1 ++ [s2c "CHARSET=UTF-8"] else restList1
    keyValue ++ s2c ";TYPE=" ++ pyJoin (s2c ",") typeList
      ++ (if !restList2.isEmpty then s2c ";" ++ pyJoin (s2c ";") restList2 else [])
      ++ s2c ":" ++ restPart
  else
    let newKeyPart2 :=
      if hasSub (s2c "QUOTED-PRINTABLE") newKeyPart then
        let a := pyReplace (s2c ";QUOTED-PRINTABLE") (s2c ";ENCODING=QUOTED-PRINTABLE") newKeyPart
        if !hasSub (s2c "CHARSET=") a then
          pyReplace (s2c "=QUOTED-PRINTABLE") (s2c "=QUOTED-PRINTABLE;CHARSET=UTF-8") a
        else a
      else newKeyPart
    newKeyPart2 ++ s2c ":" ++ restPart

/-- State of the fixer's line loop: output lines, pending `last_line`,
`started_quoted_printable`. -/
structure FixSt where
  lines : List PyStr
  lastLine : Option PyStr
  startedQP : Bool
deriving DecidableEq, Repr

/-- Process one physical line (the body of the `for line in vfile` loop,
vcardlib.py:938-1085).  `optNoEscape` is
`OPTION_DOT_NOT_FORCE_ESCAPE_COMAS`. -/
def fixLineStep (optNoEscape : Bool) (st : FixSt) (rawLine : PyStr) : FixSt :=
  let line0 := pyReplace (s2c "\n") []
    (pyReplace (s2c "\r") (s2c "\n") (pyReplace (s2c "\r\n") (s2c "\n") rawLine))
  -- continuation joining (lines 957-979)
  let joined : Option FixSt :=
    match st.lastLine with
    | some ll =>
      if st.startedQP && !isKeyValue line0 then
        let llNoNl := pyReplace (s2c "\n") [] ll
        let ll1 := if sfx (s2c "=") llNoNl then llNoNl.dropLast else llNoNl
        let line1 := if !optNoEscape then escapeCommas line0 else line0
        some { st with lastLine := some (ll1 ++ pyStrip line1 ++ s2c "\n") }
      else none
    | none => none
  match joined with
  | some st1 => st1
  | none =>
    let st1 : FixSt :=
      match st.lastLine with
      | some ll => { lines := st.lines ++ [ll], lastLine := none, startedQP := false }
      | none => st
    let (newLine, qp) :=
      if pyUpper line0 = s2c "BEGIN:VCARD" || pyUpper line0 = s2c "END:VCARD" then
        (pyUpper line0, st1.startedQP)
      else if isKeyValue line0 then
        let keyPart := pyUpper (line0.takeWhile (fun c => c ≠ 58))
        let restPart0 := line0.drop ((line0.takeWhile (fun c => c ≠ 58)).length + 1)
        let restPart := if !optNoEscape then escapeCommas restPart0 else restPart0
        if hasSub (s2c ";") keyPart then
          let nl := fixCompoundKey keyPart restPart
          (nl, st1.startedQP || hasSub (s2c "ENCODING=QUOTED-PRINTABLE") nl)
        else (keyPart ++ s2c ":" ++ restPart, st1.startedQP)
      else (line0, st1.startedQP)
    { lines := st1.lines, lastLine := some (newLine ++ s2c "\n"), startedQP := qp }

/-- Model of `fix_and_convert_to_v3` on the file's content: universal-newline
translation, the line loop, the final flush (lines 1087-1091) and the join
(line 1095). -/
def fix_and_convert_to_v3 (optNoEscape : Bool) (content : PyStr) : PyStr :=
  let text := pyReplace (s2c "\r") (s2c "\n") (pyReplace (s2c "\r\n") (s2c "\n") content)
  let st := (splitLinesKeep [] text).foldl (fun s l => fixLineStep optNoEscape s l)
    { lines := [], lastLine := none, startedQP := false }
  let finalLines := match st.lastLine with
                    | some ll => st.lines ++ [ll]
                    | none => st.lines
  finalLines.flatten

example :
    fix_and_convert_to_v3 false (s2c "begin:vcard\nTEL;CELL;VOICE:+33 6 12\nend:vcard\n")
    = s2c "BEGIN:VCARD\nTEL;TYPE=CELL,VOICE:+33 6 12\nEND:VCARD\n" := by decide
example :
    fix_and_convert_to_v3 false (s2c "PHOTO;JPEG:http://x/y.jpg\n")
    = s2c "PHOTO;TYPE=JPEG;VALUE=URI:http://x/y.jpg\n" := by decide
example :
    fix_and_convert_to_v3 false (s2c "PHOTO;JPEG;ENCODING=BASE64:abc\n")
    = s2c "PHOTO;TYPE=JPEG;ENCODING=b:abc\n" := by decide
example :
    fix_and_convert_to_v3 false (s2c "X;QUOTED-PRINTABLE:abc=\ndef\n")
    = s2c "X;ENCODING=QUOTED-PRINTABLE;CHARSET=UTF-8:abcdef\n" := by decide
example :
    fix_and_convert_to_v3 false (s2c "EMAIL;INTERNET;HOME:a@b\n")
    = s2c "EMAIL;TYPE=INTERNET,HOME:a@b\n" := by decide
example :
    fix_and_convert_to_v3 false (s2c "begin:vcard\r\nend:vcard\r\n")
    = s2c "BEGIN:VCARD\nEND:VCARD\n" := by decide
example : escapeCommas (s2c ",,,") = s2c ",\\,," := by decide
example : escapeCommas (s2c "a,b,c") = s2c "a\\,b\\,c" := by decide
example : escapeCommas (s2c "a\\,b") = s2c "a\\,b" := by decide

/-! ### Claim-side predicates (formalizations of the spec's wording) -/

/-- The record invariant claimed in C2 for default options: exactly one `FN`,
exactly one `N`, no `VERSION`, every `EMAIL` lowercase, stripped, free of a
wrapped display name and not ending in `@nowhere.invalid`, every `TEL`
whitespace-free. -/
def claimC2Spec (v : VCardN) : Bool :=
  v.fn.length = 1 && v.n.length = 1 && v.version.isEmpty
  && v.email.all (fun e => pyLower e = e && pyStrip e = e
       && (matchEmailWithName e).isNone && !sfx (s2c "@nowhere.invalid") e)
  && v.tel.all (fun t => t.all (fun c => !isWsCp c))

/-- The TEL transformation claimed in C9: strip whitespace anywhere in the
value, then replace a leading `+33` with `0`, leaving non-leading
occurrences unchanged. -/
def claimC9Tel (t : PyStr) : PyStr :=
  let s := t.filter (fun c => !isWsCp c)
  if pfx (s2c "+33") s then s2c "0" ++ s.drop 3 else s

/-- The french-tweaks TEL transformation the code actually performs
(vcardlib.py:747-753): strip edge whitespace, remove space characters, and
when the result starts with `+33` replace every occurrence of `+33` by `0`. -/
def frTelFix (t : PyStr) : PyStr :=
  let s := pyReplace (s2c " ") [] (pyStrip t)
  if pfx (s2c "+33") s then pyReplace (s2c "+33") (s2c "0") s else s

/-- Concrete mappings used for the C1 analysis: one group `Bob` with members
`Bob` and `Al`, both mapped to it. -/
def mJoin : Mappings :=
  { groups := [(s2c "Bob", [s2c "Bob", s2c "Al"])],
    vcard_group := [(s2c "Bob", some (s2c "Bob")), (s2c "Al", some (s2c "Bob"))] }

/-- Concrete records sharing an email, for the C5 analysis. -/
def rAl : VCardG :=
  { fn := [{ value := .vstr (s2c "Al"), params := [] }], n := [],
    email := [{ value := .vstr (s2c "x@y.com"), params := [] }], tel := [], org := [] }

/-- Second record sharing the email of `rAl`. -/
def rBob : VCardG :=
  { fn := [{ value := .vstr (s2c "Bob"), params := [] }], n := [],
    email := [{ value := .vstr (s2c "x@y.com"), params := [] }], tel := [], org := [] }

/-- The default `OPTION_MATCH_ATTRIBUTES` (vcardlib.py:56). -/
def defaultMatchAttributes : List PyStr := [s2c "names", s2c "tel_!work", s2c "email"]

/-! ### Supporting lemmas -/

theorem lowerCp_idem (c : Nat) : lowerCp (lowerCp c) = lowerCp c := by
  simp only [lowerCp, isUpperCp, Bool.and_eq_true, decide_eq_true_eq]
  split
  · rename_i h
    rw [if_neg (by omega)]
  · rfl

theorem mem_pyLower {x : Nat} {s : PyStr} (h : x ∈ pyLower s) : lowerCp x = x := by
  obtain ⟨c, _, rfl⟩ := List.mem_map.mp h
  exact lowerCp_idem c

theorem isWsCp_lowerCp (c : Nat) : isWsCp (lowerCp c) = isWsCp c := by
  simp only [lowerCp, isUpperCp, Bool.and_eq_true, decide_eq_true_eq]
  split
  · rename_i h
    simp only [isWsCp]
    rw [Bool.eq_iff_iff]
    simp only [Bool.or_eq_true, decide_eq_true_eq]
    omega
  · rfl

theorem mem_of_mem_dropWhile {α : Type} {p : α → Bool} {x : α} :
    ∀ {l : List α}, x ∈ l.dropWhile p → x ∈ l := by
  intro l h
  induction l with
  | nil => simp at h
  | cons c r ih =>
    rw [List.dropWhile_cons] at h
    split at h
    · exact List.mem_cons_of_mem _ (ih h)
    · exact h

theorem mem_pyStrip {x : Nat} {s : PyStr} (h : x ∈ pyStrip s) : x ∈ s := by
  unfold pyStrip at h
  rw [List.mem_reverse] at h
  have h1 := mem_of_mem_dropWhile h
  rw [List.mem_reverse] at h1
  exact mem_of_mem_dropWhile h1

theorem dropWhile_idem {α : Type} {p : α → Bool} :
    ∀ (l : List α), (l.dropWhile p).dropWhile p = l.dropWhile p := by
  intro l
  induction l with
  | nil => rfl
  | cons c r ih =>
    rw [List.dropWhile_cons]
    split
    · exact ih
    · rename_i hc
      rw [List.dropWhile_cons, if_neg hc]

theorem head?_dropWhile_not {α : Type} {p : α → Bool} :
    ∀ {l : List α} {a : α}, (l.dropWhile p).head? = some a → p a = false := by
  intro l
  induction l with
  | nil => intro a h; simp [List.dropWhile] at h
  | cons c r ih =>
    intro a h
    rw [List.dropWhile_cons] at h
    split at h
    · exact ih h
    · rename_i hc
      simp only [List.head?_cons, Option.some.injEq] at h
      subst h
      simpa using hc

theorem getLast?_dropWhile {α : Type} {p : α → Bool} :
    ∀ {l : List α}, l.dropWhile p ≠ [] → (l.dropWhile p).getLast? = l.getLast? := by
  intro l
  induction l with
  | nil => intro h; simp [List.dropWhile] at h
  | cons c r ih =>
    intro h
    rw [List.dropWhile_cons] at h ⊢
    split at h
    · rename_i hc
      rw [if_pos hc]
      have hr : r ≠ [] := by
        intro he
        exact h (by simp [he, List.dropWhile])
      obtain ⟨d, r2, rfl⟩ := List.exists_cons_of_ne_nil hr
      rw [List.getLast?_cons_cons]
      exact ih h
    · rename_i hc
      rw [if_neg hc]

/-- Lemma: `dropWhile` leaves a string alone when its head does not satisfy `p`. -/
theorem dropWhile_of_head {α : Type} {p : α → Bool} {l : List α}
    (h : ∀ a, l.head? = some a → p a = false) : l.dropWhile p = l := by
  cases l with
  | nil => rfl
  | cons c r =>
    rw [List.dropWhile_cons, if_neg]
    simp [h c rfl]

theorem pyStrip_head_ok {s : PyStr} {a : Nat} (h : (pyStrip s).head? = some a) :
    isWsCp a = false := by
  unfold pyStrip at h
  set A := s.dropWhile (fun c => isWsCp c) with hA
  set X := A.reverse.dropWhile (fun c => isWsCp c) with hX
  have hne : X ≠ [] := by
    intro he
    rw [he] at h
    simp at h
  rw [List.head?_reverse] at h
  rw [getLast?_dropWhile hne, List.getLast?_reverse] at h
  exact head?_dropWhile_not h

theorem pyStrip_last_ok {s : PyStr} {a : Nat} (h : (pyStrip s).getLast? = some a) :
    isWsCp a = false := by
  unfold pyStrip at h
  rw [List.getLast?_reverse] at h
  exact head?_dropWhile_not h

/-- A string whose ends are not whitespace is fixed by `pyStrip`. -/
theorem pyStrip_of_ends {s : PyStr}
    (h1 : ∀ a, s.head? = some a → isWsCp a = false)
    (h2 : ∀ a, s.getLast? = some a → isWsCp a = false) : pyStrip s = s := by
  unfold pyStrip
  rw [dropWhile_of_head h1, dropWhile_of_head (by
    intro a ha
    rw [List.head?_reverse] at ha
    exact h2 a ha), List.reverse_reverse]

theorem pyStrip_idem (s : PyStr) : pyStrip (pyStrip s) = pyStrip s :=
  pyStrip_of_ends (fun _ h => pyStrip_head_ok h) (fun _ h => pyStrip_last_ok h)

theorem dropWhile_map {α β : Type} (f : α → β) (p : β → Bool) :
    ∀ (l : List α), (l.map f).dropWhile p = (l.dropWhile (fun a => p (f a))).map f := by
  intro l
  induction l with
  | nil => rfl
  | cons c r ih =>
    by_cases hc : p (f c) = true
    · simp only [List.map_cons, List.dropWhile_cons, hc, if_true]
      exact ih
    · simp only [List.map_cons, List.dropWhile_cons, hc, if_false, Bool.false_eq_true]

theorem pyStrip_pyLower (s : PyStr) : pyStrip (pyLower s) = pyLower (pyStrip s) := by
  have hfe : (fun a => isWsCp (lowerCp a)) = (fun c : Nat => isWsCp c) :=
    funext fun a => isWsCp_lowerCp a
  unfold pyStrip pyLower
  rw [dropWhile_map, hfe, ← List.map_reverse, dropWhile_map, hfe, ← List.map_reverse]

theorem takeUntil_spec {stop : Nat} :
    ∀ {s a b : PyStr}, takeUntil stop s = some (a, b) →
      (∀ x ∈ a, x ∈ s) ∧ (∀ x ∈ b, x ∈ s) ∧ stop ∉ a ∧ stop ∈ s := by
  intro s
  induction s with
  | nil => intro a b h; simp [takeUntil] at h
  | cons c r ih =>
    intro a b h
    rw [takeUntil] at h
    split at h
    · rename_i hc
      simp only [Option.some.injEq, Prod.mk.injEq] at h
      obtain ⟨rfl, rfl⟩ := h
      refine ⟨by simp, fun x hx => List.mem_cons_of_mem _ hx, by simp, ?_⟩
      simp [hc]
    · rename_i hc
      split at h
      · rename_i a2 b2 heq
        simp only [Option.some.injEq, Prod.mk.injEq] at h
        obtain ⟨rfl, rfl⟩ := h
        obtain ⟨hma, hmb, hns, hs⟩ := ih heq
        refine ⟨?_, fun x hx => List.mem_cons_of_mem _ (hmb x hx), ?_, List.mem_cons_of_mem _ hs⟩
        · intro x hx
          rcases List.mem_cons.mp hx with rfl | hx2
          · exact List.mem_cons_self _ _
          · exact List.mem_cons_of_mem _ (hma x hx2)
        · intro hx
          rcases List.mem_cons.mp hx with rfl | hx2
          · exact hc rfl
          · exact hns hx2
      · exact absurd h (by simp)

/-- Everything the `matchEmailWithName` parser captures: the address is made
of characters of the input, contains no `>`, and the input contains a `>`. -/
theorem matchEmailWithName_spec {s addr : PyStr} (h : matchEmailWithName s = some addr) :
    (∀ x ∈ addr, x ∈ s) ∧ 62 ∉ addr ∧ 62 ∈ s := by
  unfold matchEmailWithName at h
  split at h
  · rename_i r2 hdw
    have hr2 : ∀ x ∈ r2, x ∈ s := fun x hx =>
      mem_of_mem_dropWhile (l := s) (by rw [hdw]; exact List.mem_cons_of_mem _ hx)
    split at h
    · rename_i nm r3 hq
      obtain ⟨-, hmb, -, -⟩ := takeUntil_spec hq
      have hr3 : ∀ x ∈ r3, x ∈ s := fun x hx => hr2 x (hmb x hx)
      split at h
      · exact absurd h (by simp)
      · split at h
        · rename_i r5 hdw2
          have hr5 : ∀ x ∈ r5, x ∈ s := fun x hx =>
            hr3 x (mem_of_mem_dropWhile (by rw [hdw2]; exact List.mem_cons_of_mem _ hx))
          split at h
          · rename_i a2 r6 hg
            obtain ⟨hma, -, hns, hgt⟩ := takeUntil_spec hg
            split at h
            · exact absurd h (by simp)
            · split at h
              · simp only [Option.some.injEq] at h
                subst h
                exact ⟨fun x hx => hr5 x (hma x hx), hns, hr5 62 hgt⟩
              · exact absurd h (by simp)
          · exact absurd h (by simp)
        · exact absurd h (by simp)
    · exact absurd h (by simp)
  · exact absurd h (by simp)

theorem matchEmailWithName_none {v : PyStr} (h : 62 ∉ v) : matchEmailWithName v = none := by
  cases hm : matchEmailWithName v with
  | none => rfl
  | some a => exact absurd (matchEmailWithName_spec hm).2.2 h

theorem stripPfx_mem : ∀ {pat s r : PyStr}, stripPfx pat s = some r → ∀ x ∈ r, x ∈ s := by
  intro pat
  induction pat with
  | nil =>
    intro s r h
    simp only [stripPfx, Option.some.injEq] at h
    subst h
    exact fun x hx => hx
  | cons a as ih =>
    intro s r h
    cases s with
    | nil => simp [stripPfx] at h
    | cons b bs =>
      rw [stripPfx] at h
      split at h
      · exact fun x hx => List.mem_cons_of_mem _ (ih h x hx)
      · simp at h

theorem mem_pyReplaceAux {pat rep : PyStr} :
    ∀ {fuel : Nat} {s : PyStr} {x : Nat}, x ∈ pyReplaceAux pat rep fuel s → x ∈ s ∨ x ∈ rep := by
  intro fuel
  induction fuel with
  | zero =>
    intro s x h
    cases s <;> simp only [pyReplaceAux] at h <;> exact Or.inl h
  | succ n ih =>
    intro s x h
    cases s with
    | nil => simp [pyReplaceAux] at h
    | cons c rest =>
      rw [pyReplaceAux] at h
      split at h
      · rename_i r hsp
        split at h
        · rcases List.mem_cons.mp h with rfl | h2
          · exact Or.inl (List.mem_cons_self _ _)
          · rcases ih h2 with hl | hr
            · exact Or.inl (List.mem_cons_of_mem _ hl)
            · exact Or.inr hr
        · rcases List.mem_append.mp h with hr | h2
          · exact Or.inr hr
          · rcases ih h2 with hl | hr
            · exact Or.inl (stripPfx_mem hsp x hl)
            · exact Or.inr hr
      · rcases List.mem_cons.mp h with rfl | h2
        · exact Or.inl (List.mem_cons_self _ _)
        · rcases ih h2 with hl | hr
          · exact Or.inl (List.mem_cons_of_mem _ hl)
          · exact Or.inr hr

/-- Single-character deletion by `replace(c, '')` removes every occurrence. -/
theorem pyReplace_del_spec {p : Nat} :
    ∀ {fuel : Nat} {s : PyStr} {x : Nat}, s.length ≤ fuel →
      x ∈ pyReplaceAux [p] [] fuel s → x ∈ s ∧ x ≠ p := by
  intro fuel
  induction fuel with
  | zero =>
    intro s x hlen h
    have : s = [] := List.eq_nil_of_length_eq_zero (Nat.le_zero.mp hlen)
    subst this
    simp [pyReplaceAux] at h
  | succ n ih =>
    intro s x hlen h
    cases s with
    | nil => simp [pyReplaceAux] at h
    | cons c rest =>
      rw [pyReplaceAux] at h
      have hlen2 : rest.length ≤ n := by
        simp only [List.length_cons] at hlen
        omega
      by_cases hc : p = c
      · have hsp : stripPfx [p] (c :: rest) = some rest := by
          rw [stripPfx, if_pos hc]
          rfl
        rw [hsp] at h
        simp only [List.isEmpty_cons, List.nil_append] at h
        obtain ⟨h1, h2⟩ := ih hlen2 h
        exact ⟨List.mem_cons_of_mem _ h1, h2⟩
      · have hsp : stripPfx [p] (c :: rest) = none := by
          rw [stripPfx, if_neg hc]
        rw [hsp] at h
        rcases List.mem_cons.mp h with rfl | h2
        · exact ⟨List.mem_cons_self _ _, fun he => hc he.symm⟩
        · obtain ⟨h1, h2⟩ := ih hlen2 h2
          exact ⟨List.mem_cons_of_mem _ h1, h2⟩

theorem pyRemoveSpaces_no_space {s : PyStr} {x : Nat}
    (h : x ∈ pyReplace (s2c " ") [] s) : x ∈ s ∧ x ≠ 32 :=
  pyReplace_del_spec (Nat.le_refl _) h

/-! ### Character-level facts about case mapping and `titleMap` -/

theorem isAlphaCp_lowerCp (c : Nat) : isAlphaCp (lowerCp c) = isAlphaCp c := by
  simp only [lowerCp]
  split
  · rename_i h
    simp only [isUpperCp, Bool.and_eq_true, decide_eq_true_eq] at h
    simp only [isAlphaCp, isLowerCp, isUpperCp]
    rw [Bool.eq_iff_iff]
    simp only [Bool.or_eq_true, Bool.and_eq_true, decide_eq_true_eq]
    omega
  · rfl

theorem isAlphaCp_upperCp (c : Nat) : isAlphaCp (upperCp c) = isAlphaCp c := by
  simp only [upperCp]
  split
  · rename_i h
    simp only [isLowerCp, Bool.and_eq_true, decide_eq_true_eq] at h
    simp only [isAlphaCp, isLowerCp, isUpperCp]
    rw [Bool.eq_iff_iff]
    simp only [Bool.or_eq_true, Bool.and_eq_true, decide_eq_true_eq]
    omega
  · rfl

theorem upperCp_idem (c : Nat) : upperCp (upperCp c) = upperCp c := by
  simp only [upperCp, isLowerCp, Bool.and_eq_true, decide_eq_true_eq]
  split
  · rename_i h
    rw [if_neg (by omega)]
  · rfl

theorem lowerCp_upperCp (c : Nat) : lowerCp (upperCp c) = lowerCp c := by
  simp only [upperCp, isLowerCp, Bool.and_eq_true, decide_eq_true_eq]
  split
  · rename_i h
    simp only [lowerCp, isUpperCp, Bool.and_eq_true, decide_eq_true_eq]
    rw [if_pos (by omega), if_neg (by omega)]
    omega
  · rfl

theorem isWsCp_upperCp (c : Nat) : isWsCp (upperCp c) = isWsCp c := by
  simp only [upperCp, isLowerCp, Bool.and_eq_true, decide_eq_true_eq]
  split
  · rename_i h
    simp only [isWsCp]
    rw [Bool.eq_iff_iff]
    simp only [Bool.or_eq_true, decide_eq_true_eq]
    omega
  · rfl

theorem isWsCp_titleMap (p : Bool) (c : Nat) : isWsCp (titleMap p c) = isWsCp c := by
  unfold titleMap
  split
  · split
    · exact isWsCp_lowerCp c
    · exact isWsCp_upperCp c
  · rfl

theorem isAlphaCp_titleMap (p : Bool) (c : Nat) : isAlphaCp (titleMap p c) = isAlphaCp c := by
  unfold titleMap
  split
  · split
    · exact isAlphaCp_lowerCp c
    · exact isAlphaCp_upperCp c
  · rfl

theorem lowerCp_titleMap (p : Bool) (c : Nat) : lowerCp (titleMap p c) = lowerCp c := by
  unfold titleMap
  split
  · split
    · exact lowerCp_idem c
    · exact lowerCp_upperCp c
  · rfl

theorem titleMap_idem (p : Bool) (c : Nat) : titleMap p (titleMap p c) = titleMap p c := by
  by_cases hα : isAlphaCp c = true
  · cases p <;>
      simp [titleMap, hα, isAlphaCp_lowerCp, isAlphaCp_upperCp, lowerCp_idem, upperCp_idem]
  · simp [titleMap, hα]

theorem titleMap_eq_nonalpha {p : Bool} {c d : Nat} (hd : isAlphaCp d = false)
    (h : titleMap p c = d) : c = d := by
  by_cases hα : isAlphaCp c = true
  · exfalso
    have hα2 : isAlphaCp (titleMap p c) = true := by rw [isAlphaCp_titleMap]; exact hα
    rw [h, hd] at hα2
    exact Bool.false_ne_true hα2
  · unfold titleMap at h
    rw [if_neg hα] at h
    exact h

/-! ### Facts about `pyTitleAux` -/

theorem pyTitleAux_eq_nil {p : Bool} {l : PyStr} : pyTitleAux p l = [] ↔ l = [] := by
  cases l <;> simp [pyTitleAux]

theorem not_mem_pyTitleAux {d : Nat} (hd : isAlphaCp d = false) :
    ∀ {p : Bool} {l : PyStr}, d ∉ l → d ∉ pyTitleAux p l := by
  intro p l
  induction l generalizing p with
  | nil => intro _ h; simp [pyTitleAux] at h
  | cons c r ih =>
    intro hni hmem
    rcases List.mem_cons.mp hmem with he | hmem2
    · exact hni (by rw [titleMap_eq_nonalpha hd he.symm]; exact List.mem_cons_self _ _)
    · exact ih (fun hx => hni (List.mem_cons_of_mem _ hx)) hmem2

theorem pyTitleAux_idem : ∀ (l : PyStr) (p : Bool),
    pyTitleAux p (pyTitleAux p l) = pyTitleAux p l := by
  intro l
  induction l with
  | nil => intro p; rfl
  | cons c r ih =>
    intro p
    show titleMap p (titleMap p c) :: pyTitleAux (isAlphaCp (titleMap p c)) (pyTitleAux (isAlphaCp c) r)
      = titleMap p c :: pyTitleAux (isAlphaCp c) r
    rw [titleMap_idem, isAlphaCp_titleMap, ih (isAlphaCp c)]

theorem pyLower_pyTitleAux : ∀ (l : PyStr) (p : Bool), pyLower (pyTitleAux p l) = pyLower l := by
  intro l
  induction l with
  | nil => intro p; rfl
  | cons c r ih =>
    intro p
    show lowerCp (titleMap p c) :: pyLower (pyTitleAux (isAlphaCp c) r) = lowerCp c :: pyLower r
    rw [lowerCp_titleMap, ih (isAlphaCp c)]

theorem getLast?_ws_pyTitleAux : ∀ (l : PyStr) (p : Bool),
    ((pyTitleAux p l).getLast?).map isWsCp = (l.getLast?).map isWsCp := by
  intro l
  induction l with
  | nil => intro p; rfl
  | cons c r ih =>
    intro p
    cases r with
    | nil => simp [pyTitleAux, isWsCp_titleMap]
    | cons d r2 =>
      show ((titleMap p c :: pyTitleAux (isAlphaCp c) (d :: r2)).getLast?).map isWsCp
        = ((c :: d :: r2).getLast?).map isWsCp
      have hne : pyTitleAux (isAlphaCp c) (d :: r2) = titleMap (isAlphaCp c) d
          :: pyTitleAux (isAlphaCp d) r2 := rfl
      rw [hne, List.getLast?_cons_cons, List.getLast?_cons_cons, ← hne]
      exact ih (isAlphaCp c)

/-! ### Substring machinery -/

theorem pfx_iff {p : PyStr} : ∀ {l : PyStr}, pfx p l = true ↔ ∃ v, l = p ++ v := by
  induction p with
  | nil =>
    intro l
    simp only [pfx, List.nil_append]
    exact ⟨fun _ => ⟨l, rfl⟩, fun _ => trivial⟩
  | cons a as ih =>
    intro l
    cases l with
    | nil =>
      simp only [pfx]
      constructor
      · intro h; exact absurd h (by simp)
      · rintro ⟨v, hv⟩; simp at hv
    | cons b bs =>
      simp only [pfx, Bool.and_eq_true, decide_eq_true_eq]
      constructor
      · rintro ⟨rfl, h2⟩
        obtain ⟨v, rfl⟩ := ih.mp h2
        exact ⟨v, rfl⟩
      · rintro ⟨v, hv⟩
        simp only [List.cons_append, List.cons.injEq] at hv
        obtain ⟨rfl, rfl⟩ := hv
        exact ⟨rfl, ih.mpr ⟨v, rfl⟩⟩

theorem hasSub_iff {p : PyStr} : ∀ {l : PyStr}, hasSub p l = true ↔ ∃ u v, l = u ++ p ++ v := by
  intro l
  induction l with
  | nil =>
    simp only [hasSub]
    rw [pfx_iff]
    constructor
    · rintro ⟨v, hv⟩; exact ⟨[], v, by simpa using hv⟩
    · rintro ⟨u, v, huv⟩
      rw [List.append_assoc] at huv
      exact ⟨v, by simp at huv ⊢; exact huv.2⟩
  | cons c r ih =>
    simp only [hasSub, Bool.or_eq_true]
    rw [pfx_iff, ih]
    constructor
    · rintro (⟨v, hv⟩ | ⟨u, v, huv⟩)
      · exact ⟨[], v, by simpa using hv⟩
      · exact ⟨c :: u, v, by simp [huv]⟩
    · rintro ⟨u, v, huv⟩
      cases u with
      | nil => exact Or.inl ⟨v, by simpa using huv⟩
      | cons u0 u1 =>
        simp only [List.cons_append, List.cons.injEq, List.append_assoc] at huv
        exact Or.inr ⟨u1, v, by rw [huv.2, List.append_assoc]⟩

theorem hasSub_reverse {p l : PyStr} : hasSub p l.reverse = hasSub p.reverse l := by
  rw [Bool.eq_iff_iff, hasSub_iff, hasSub_iff]
  constructor
  · rintro ⟨u, v, huv⟩
    refine ⟨v.reverse, u.reverse, ?_⟩
    have := congrArg List.reverse huv
    simpa [List.reverse_append, List.append_assoc] using this
  · rintro ⟨u, v, huv⟩
    refine ⟨v.reverse, u.reverse, ?_⟩
    have := congrArg List.reverse huv
    simpa [List.reverse_append, List.append_assoc] using this

theorem hasSub_of_dropWhile {pat : PyStr} {q : Nat → Bool} :
    ∀ {l : PyStr}, hasSub pat (l.dropWhile q) = true → hasSub pat l = true := by
  intro l
  induction l with
  | nil => intro h; simpa [List.dropWhile] using h
  | cons c r ih =>
    intro h
    rw [List.dropWhile_cons] at h
    split at h
    · have := ih h
      simp only [hasSub, Bool.or_eq_true]
      exact Or.inr this
    · exact h

theorem hasSub_of_pyStrip {pat l : PyStr} (h : hasSub pat (pyStrip l) = true) :
    hasSub pat l = true := by
  unfold pyStrip at h
  rw [hasSub_reverse] at h
  have h2 := hasSub_of_dropWhile h
  rw [hasSub_reverse, List.reverse_reverse] at h2
  exact hasSub_of_dropWhile h2

theorem titleMap_eq_32 {p : Bool} {c : Nat} : titleMap p c = 32 ↔ c = 32 := by
  constructor
  · exact titleMap_eq_nonalpha (by decide)
  · rintro rfl; rfl

theorem hasSub_dd_pyTitleAux : ∀ (l : PyStr) (p : Bool),
    hasSub (s2c "  ") (pyTitleAux p l) = hasSub (s2c "  ") l := by
  intro l
  induction l with
  | nil => intro p; rfl
  | cons c r ih =>
    intro p
    show hasSub (s2c "  ") (titleMap p c :: pyTitleAux (isAlphaCp c) r)
      = hasSub (s2c "  ") (c :: r)
    simp only [hasSub, ih (isAlphaCp c)]
    congr 1
    show pfx (s2c "  ") (titleMap p c :: pyTitleAux (isAlphaCp c) r) = pfx (s2c "  ") (c :: r)
    have h32 : (decide (32 = titleMap p c)) = (decide (32 = c)) := by
      rw [Bool.eq_iff_iff]
      simp only [decide_eq_true_eq]
      constructor
      · intro h; rw [titleMap_eq_32.mp h.symm]
      · rintro rfl; exact (titleMap_eq_32.mpr rfl).symm
    cases r with
    | nil =>
      show (decide (32 = titleMap p c) && pfx [32] []) = (decide (32 = c) && pfx [32] [])
      rw [h32]
    | cons d r2 =>
      show (decide (32 = titleMap p c)
          && pfx [32] (titleMap (isAlphaCp c) d :: pyTitleAux (isAlphaCp d) r2))
        = (decide (32 = c) && pfx [32] (d :: r2))
      have h32d : (decide (32 = titleMap (isAlphaCp c) d)) = (decide (32 = d)) := by
        rw [Bool.eq_iff_iff]
        simp only [decide_eq_true_eq]
        constructor
        · intro h; rw [titleMap_eq_32.mp h.symm]
        · rintro rfl; exact (titleMap_eq_32.mpr rfl).symm
      show (decide (32 = titleMap p c)
          && (decide (32 = titleMap (isAlphaCp c) d) && pfx [] (pyTitleAux (isAlphaCp d) r2)))
        = (decide (32 = c) && (decide (32 = d) && pfx [] (d :: r2).tail))
      simp only [pfx, h32, h32d]

/-! ### No-op lemmas: each cleaning stage fixes a string without its pattern -/

theorem hasSub_cons_false {pat : PyStr} {x : Nat} {xs : PyStr}
    (h : hasSub pat (x :: xs) = false) :
    pfx pat (x :: xs) = false ∧ hasSub pat xs = false := by
  rw [hasSub, Bool.or_eq_false_iff] at h
  exact h

theorem hasSub_single_false {a : Nat} {s : PyStr} (h : a ∉ s) : hasSub [a] s = false := by
  induction s with
  | nil => rfl
  | cons c r ih =>
    rw [hasSub, Bool.or_eq_false_iff]
    constructor
    · have hne : a ≠ c := fun he => h (he ▸ List.mem_cons_self c r)
      simp [pfx, hne]
    · exact ih (fun hx => h (List.mem_cons_of_mem _ hx))

theorem stripPfx_none_of_pfx_false : ∀ {pat s : PyStr}, pfx pat s = false → stripPfx pat s = none := by
  intro pat
  induction pat with
  | nil => intro s h; simp [pfx] at h
  | cons a as ih =>
    intro s h
    cases s with
    | nil => rfl
    | cons b bs =>
      rw [stripPfx]
      by_cases hab : a = b
      · rw [if_pos hab]
        apply ih
        rw [pfx, Bool.and_eq_false_iff] at h
        rcases h with h1 | h2
        · exact absurd h1 (by simp [hab])
        · exact h2
      · rw [if_neg hab]

theorem pyReplace_noop {pat rep : PyStr} :
    ∀ (fuel : Nat) (s : PyStr), hasSub pat s = false → pyReplaceAux pat rep fuel s = s := by
  intro fuel
  induction fuel with
  | zero => intro s _; cases s <;> rfl
  | succ n ih =>
    intro s h
    cases s with
    | nil => rfl
    | cons c rest =>
      obtain ⟨h1, h2⟩ := hasSub_cons_false h
      rw [pyReplaceAux, stripPfx_none_of_pfx_false h1]
      show c :: pyReplaceAux pat rep n rest = c :: rest
      rw [ih rest h2]

theorem iceMatchAt_pfx {prev : Bool} {s r : PyStr} (h : iceMatchAt prev s = some r) :
    pfx (s2c "ice") (pyLower s) = true := by
  have hice3 : s2c "ice" = [105, 99, 101] := by decide
  unfold iceMatchAt at h
  split at h
  · exact absurd h (by simp)
  · split at h
    · rename_i a b c2 r2
      split at h
      · rename_i hcond
        simp only [Bool.and_eq_true, decide_eq_true_eq] at hcond
        rw [hice3]
        show pfx [105, 99, 101] (lowerCp a :: lowerCp b :: lowerCp c2 :: pyLower r2) = true
        simp [pfx, hcond.1.1, hcond.1.2, hcond.2]
      · exact absurd h (by simp)
    · exact absurd h (by simp)

theorem iceSub_noop : ∀ (fuel : Nat) (prev : Bool) (s : PyStr),
    hasSub (s2c "ice") (pyLower s) = false → iceSubAux fuel prev s = s := by
  intro fuel
  induction fuel with
  | zero => intro prev s _; cases s <;> rfl
  | succ n ih =>
    intro prev s h
    cases s with
    | nil => rfl
    | cons c rest =>
      have hcr : pyLower (c :: rest) = lowerCp c :: pyLower rest := rfl
      rw [hcr] at h
      obtain ⟨h1, h2⟩ := hasSub_cons_false h
      have hm : iceMatchAt prev (c :: rest) = none := by
        cases hm2 : iceMatchAt prev (c :: rest) with
        | none => rfl
        | some r =>
          exfalso
          have hp := iceMatchAt_pfx hm2
          rw [hcr] at hp
          rw [hp] at h1
          exact Bool.noConfusion h1
      rw [iceSubAux, hm]
      show c :: iceSubAux n (isWordCp c) rest = c :: rest
      rw [ih (isWordCp c) rest h2]

theorem bracketTryAt_mem {s : PyStr} {p : PyStr × PyStr} (h : bracketTryAt s = some p) :
    40 ∈ s ∨ 91 ∈ s := by
  unfold bracketTryAt at h
  split at h
  · rename_i r2 hdw
    exact Or.inl (mem_of_mem_dropWhile (l := s) (p := fun c => decide (c = 32))
      (by rw [hdw]; exact List.mem_cons_self _ _))
  · rename_i r2 hdw
    exact Or.inr (mem_of_mem_dropWhile (l := s) (p := fun c => decide (c = 32))
      (by rw [hdw]; exact List.mem_cons_self _ _))
  · exact absurd h (by simp)

theorem bracketSearch_none {s : PyStr} (h40 : 40 ∉ s) (h91 : 91 ∉ s) :
    bracketSearch s = none := by
  induction s with
  | nil => rfl
  | cons c rest ih =>
    cases hb : bracketTryAt (c :: rest) with
    | some p =>
      exfalso
      rcases bracketTryAt_mem hb with hm | hm
      · exact h40 hm
      · exact h91 hm
    | none =>
      rw [bracketSearch, hb]
      exact ih (fun hx => h40 (List.mem_cons_of_mem _ hx))
        (fun hx => h91 (List.mem_cons_of_mem _ hx))

/-- On a string with no dot, no opening bracket, no double space and no
case-insensitive `ice`, `sanitize_name` is title-casing after stripping. -/
theorem sanitize_eq_title_strip {s : PyStr}
    (h46 : 46 ∉ s) (h40 : 40 ∉ s) (h91 : 91 ∉ s)
    (hdd : hasSub (s2c "  ") s = false)
    (hice : hasSub (s2c "ice") (pyLower s) = false) :
    sanitize_name s = pyTitle (pyStrip s) := by
  have hiceq : iceSub s = s := iceSub_noop s.length false s hice
  have hdotp : s2c "." = [46] := by decide
  have hdot : pyReplace (s2c ".") (s2c " ") s = s := by
    rw [hdotp]
    exact pyReplace_noop s.length s (hasSub_single_false h46)
  have hdd2 : pyReplace (s2c "  ") (s2c " ") s = s :=
    pyReplace_noop s.length s hdd
  have hbr : bracketSearch s = none := bracketSearch_none h40 h91
  simp only [sanitize_name, hiceq, hdot, hdd2, hbr]

/-- C8 amended: `sanitize_name` is idempotent on strings containing no dot,
no `(`, no `[`, no two consecutive spaces and no occurrence of the letters
`ice` in any case (the counterexample shows a run of five spaces — and, more
generally, material that one pass removes incompletely — breaks
idempotence). -/
theorem C8_amended (s : PyStr)
    (h46 : 46 ∉ s) (h40 : 40 ∉ s) (h91 : 91 ∉ s)
    (hdd : hasSub (s2c "  ") s = false)
    (hice : hasSub (s2c "ice") (pyLower s) = false) :
    sanitize_name (sanitize_name s) = sanitize_name s := by
  have hs1 : sanitize_name s = pyTitle (pyStrip s) :=
    sanitize_eq_title_strip h46 h40 h91 hdd hice
  have h46t : 46 ∉ pyTitle (pyStrip s) :=
    not_mem_pyTitleAux (by decide) (fun hx => h46 (mem_pyStrip hx))
  have h40t : 40 ∉ pyTitle (pyStrip s) :=
    not_mem_pyTitleAux (by decide) (fun hx => h40 (mem_pyStrip hx))
  have h91t : 91 ∉ pyTitle (pyStrip s) :=
    not_mem_pyTitleAux (by decide) (fun hx => h91 (mem_pyStrip hx))
  have hddA : hasSub (s2c "  ") (pyStrip s) = false := by
    cases hcval : hasSub (s2c "  ") (pyStrip s) with
    | false => rfl
    | true =>
      have hx := hasSub_of_pyStrip hcval
      rw [hdd] at hx
      exact Bool.noConfusion hx
  have hddt : hasSub (s2c "  ") (pyTitle (pyStrip s)) = false := by
    show hasSub (s2c "  ") (pyTitleAux false (pyStrip s)) = false
    rw [hasSub_dd_pyTitleAux]
    exact hddA
  have hicet : hasSub (s2c "ice") (pyLower (pyTitle (pyStrip s))) = false := by
    show hasSub (s2c "ice") (pyLower (pyTitleAux false (pyStrip s))) = false
    rw [pyLower_pyTitleAux, ← pyStrip_pyLower]
    cases hcval : hasSub (s2c "ice") (pyStrip (pyLower s)) with
    | false => rfl
    | true =>
      have hx := hasSub_of_pyStrip hcval
      rw [hice] at hx
      exact Bool.noConfusion hx
  have hs2 : sanitize_name (pyTitle (pyStrip s)) = pyTitle (pyStrip (pyTitle (pyStrip s))) :=
    sanitize_eq_title_strip h46t h40t h91t hddt hicet
  have hstript : pyStrip (pyTitle (pyStrip s)) = pyTitle (pyStrip s) := by
    apply pyStrip_of_ends
    · intro a ha
      cases hA : pyStrip s with
      | nil => rw [hA] at ha; simp [pyTitle, pyTitleAux] at ha
      | cons c r =>
        rw [hA] at ha
        have hh : (pyTitle (c :: r)).head? = some (titleMap false c) := rfl
        rw [hh, Option.some.injEq] at ha
        rw [← ha, isWsCp_titleMap]
        exact pyStrip_head_ok (by rw [hA]; rfl)
    · intro a ha
      have hmap := getLast?_ws_pyTitleAux (pyStrip s) false
      have hat : (pyTitle (pyStrip s)).getLast? = some a := ha
      rw [show pyTitle (pyStrip s) = pyTitleAux false (pyStrip s) from rfl] at hat
      rw [hat] at hmap
      cases hlA : (pyStrip s).getLast? with
      | none => rw [hlA] at hmap; simp at hmap
      | some b =>
        rw [hlA] at hmap
        have hab : isWsCp a = isWsCp b := by simpa using hmap
        rw [hab]
        exact pyStrip_last_ok hlA
  have htt : pyTitle (pyTitle (pyStrip s)) = pyTitle (pyStrip s) :=
    pyTitleAux_idem (pyStrip s) false
  rw [hs1, hs2, hstript, htt, ← hs1]

/-- C8 amended, witnessed at a concrete input satisfying the hypotheses. -/
theorem C8_amended_witness :
    (46 ∉ s2c "jean dupont") ∧ (40 ∉ s2c "jean dupont") ∧ (91 ∉ s2c "jean dupont")
    ∧ hasSub (s2c "  ") (s2c "jean dupont") = false
    ∧ hasSub (s2c "ice") (pyLower (s2c "jean dupont")) = false
    ∧ sanitize_name (sanitize_name (s2c "jean dupont")) = sanitize_name (s2c "jean dupont") :=
  ⟨by decide, by decide, by decide, by decide, by decide,
   C8_amended (s2c "jean dupont") (by decide) (by decide) (by decide) (by decide) (by decide)⟩

/-! ### Theorems for the claims -/

/-- C3: `select_most_relevant_name` cannot return the maximizing candidate:
on the non-empty, non-empty-valued, `=`-free candidate list `["Alice"]` the
claim predicts the result `"Alice"`, but the code raises `TypeError` at the
first non-empty candidate (vcardlib.py:385), because the `raise` sits on the
`else` branch of the `if name == ""` test. -/
theorem C3_select_raises_on_nonempty_candidates :
    select_most_relevant_name [s2c "Alice"] = .error .typeError := by rfl

/-- C4: on an empty list the code does fail (`ValueError`, the
`EmptyCandidateList` of the spec), but an empty-string candidate is *skipped*
(`continue`, vcardlib.py:383) rather than fatal — the error is raised at the
first non-empty candidate instead — and a list of non-empty candidates
always fails with `TypeError`, contrary to the claim. -/
theorem C4_select_error_behaviour :
    select_most_relevant_name [] = .error .valueError
    ∧ select_most_relevant_name [s2c "", s2c "Bob"] = .error .typeError
    ∧ select_most_relevant_name [s2c ""] = .error .runtimeError := by
  exact ⟨rfl, rfl, rfl⟩

/-- C6: the fixer's text transformation is not idempotent.  On the input
`NOTE:,,\n` the comma-escaping regex `([^\\]|^),` consumes the character
before each comma, so its first match swallows both commas and escapes only
the second: one application yields `NOTE:,\,\n`, and a second application
escapes the now-leading comma, yielding `NOTE:\,\,\n`. -/
theorem C6_fixer_not_idempotent :
    fix_and_convert_to_v3 false (s2c "NOTE:,,\n") = s2c "NOTE:,\\,\n"
    ∧ fix_and_convert_to_v3 false (fix_and_convert_to_v3 false (s2c "NOTE:,,\n"))
        = s2c "NOTE:\\,\\,\n"
    ∧ fix_and_convert_to_v3 false (fix_and_convert_to_v3 false (s2c "NOTE:,,\n"))
        ≠ fix_and_convert_to_v3 false (s2c "NOTE:,,\n") := by
  exact ⟨by decide, by decide, by decide⟩

/-- C7: `merge` does not append each instance exactly once.  Merging a record
with two `EMAIL` instances appends the full `EMAIL` instance list once per
child (vcardlib.py:898-903), so each of the two instances arrives twice. -/
theorem C7_merge_double_inserts :
    merge [(s2c "fn", [{ value := s2c "A", params := [] }])]
      [[(s2c "email", [{ value := s2c "a@b", params := [] },
                       { value := s2c "c@d", params := [] }])]]
    = [(s2c "fn", [{ value := s2c "A", params := [] }]),
       (s2c "email", [{ value := s2c "a@b", params := [] },
                      { value := s2c "c@d", params := [] },
                      { value := s2c "a@b", params := [] },
                      { value := s2c "c@d", params := [] }])] := by decide

/-- C1: `group_keys` cannot maintain the claimed consistency because it
cannot group at all.  From the claim's initial empty mapping, the very first
grouping attempt raises `TypeError` (via `select_most_relevant_name`) and
creates nothing; and in the join-an-existing-group branch the member list is
mutated *before* the raising call (vcardlib.py:1351 vs 1357), so at the
exception the mapping violates `member_of[k] = g ⇔ k ∈ groups[g]`. -/
theorem C1_group_keys_aborts_and_breaks_consistency :
    (group_keys true emptyMappings (s2c "Al") (s2c "Bob") none none
       = (emptyMappings, .error .typeError))
    ∧ consistentB mJoin = true
    ∧ (group_keys true mJoin (s2c "Carl") (s2c "Al") none (some (s2c "Bob"))).2
        = .error .typeError
    ∧ consistentB (group_keys true mJoin (s2c "Carl") (s2c "Al") none
        (some (s2c "Bob"))).1 = false := by
  exact ⟨rfl, by decide, rfl, by decide⟩

/-- C5: phase 1 cannot produce a partition when two records share an exact
attribute value: the first collision calls `group_keys`, which raises
`TypeError`; `get_vcards_groups` propagates it in both insertion orders, so
no partition exists to compare. -/
theorem C5_phase1_raises_on_any_match :
    get_vcards_groups true defaultMatchAttributes [(s2c "Al", rAl), (s2c "Bob", rBob)]
      = .error .typeError
    ∧ get_vcards_groups true defaultMatchAttributes [(s2c "Bob", rBob), (s2c "Al", rAl)]
      = .error .typeError := by
  exact ⟨rfl, rfl⟩

/-- C8 counterexample: `sanitize_name` is not idempotent.  On `"a     b"`
(five spaces) the two `replace('  ', ' ')` passes leave a double space
(`"A  B"`), which a second application collapses to `"A B"`. -/
theorem C8_sanitize_not_idempotent :
    sanitize_name (s2c "a     b") = s2c "A  B"
    ∧ sanitize_name (sanitize_name (s2c "a     b")) = s2c "A B"
    ∧ sanitize_name (sanitize_name (s2c "a     b")) ≠ sanitize_name (s2c "a     b") := by
  exact ⟨by decide, by decide, by decide⟩

/-- C10 counterexample: with `fn` and `n` absent and a candidate name
available from an `email` entry, `set_name` raises `TypeError` from
`select_most_relevant_name` (vcardlib.py:385) — not the `KeyError` on
deletion the claim describes, which sits after the selection
(vcardlib.py:360) and is never reached. -/
theorem C10_set_name_raises_before_deletion :
    set_name false [(s2c "email", [s2c "\x22Jean Dupont\x22 <jean@d.fr>"])]
      = .error .typeError
    ∧ PyErr.typeError ≠ PyErr.keyError := by
  exact ⟨rfl, by decide⟩

/-- C2 counterexample: a record whose `EMAIL` is a wrapped display form with
spaces inside the angle brackets and whose `TEL` contains a tab violates the
claimed invariant after `normalize` with default options: the recovered
address `" x@y.com "` is not stripped, and the tab survives in the `TEL`
value (only the space character is removed inside the value). -/
theorem C2_claimed_invariant_fails :
    normalize false (s2c "Al")
      { version := [s2c "3.0"], fn := [], n := [],
        email := [s2c "\x22A B\x22 < x@y.com >"], tel := [s2c "06\t12"], note := [] }
    = { version := [], fn := [s2c "Al"],
        n := [{ family := s2c "Al", given := [], suffix := none }],
        email := [s2c " x@y.com "], tel := [s2c "06\t12"], note := [] }
    ∧ claimC2Spec (normalize false (s2c "Al")
      { version := [s2c "3.0"], fn := [], n := [],
        email := [s2c "\x22A B\x22 < x@y.com >"], tel := [s2c "06\t12"], note := [] })
      = false := by
  exact ⟨by decide, by decide⟩

/-- C9 counterexample: on `TEL` value `"+33\t6+331"` with french tweaks the
code produces `"0\t601"` — the interior tab survives (only `' '` is removed)
and `str.replace` rewrites the *non-leading* `+33` too — while the claim
predicts `"06+331"`. -/
theorem C9_claimed_tel_fix_fails :
    (normalize true (s2c "Al")
      { version := [], fn := [], n := [], email := [],
        tel := [s2c "+33\t6+331"], note := [] }).tel = [s2c "0\t601"]
    ∧ claimC9Tel (s2c "+33\t6+331") = s2c "06+331"
    ∧ (normalize true (s2c "Al")
      { version := [], fn := [], n := [], email := [],
        tel := [s2c "+33\t6+331"], note := [] }).tel
      ≠ [claimC9Tel (s2c "+33\t6+331")] := by
  exact ⟨by decide, by decide, by decide⟩

/-- Lemma: `select_most_relevant_name` never returns: every call raises
(`ValueError` on an empty list, `RuntimeError` when every candidate is the
empty string, `TypeError` at the first non-empty candidate), and the raised
error is never a `KeyError`. -/
theorem select_never_ok (names : List PyStr) :
    ∃ e, select_most_relevant_name names = .error e ∧ e ≠ PyErr.keyError := by
  unfold select_most_relevant_name
  by_cases h : names.isEmpty = true
  · rw [if_pos h]
    exact ⟨.valueError, rfl, by decide⟩
  · rw [if_neg h]
    clear h
    induction names with
    | nil => exact ⟨.runtimeError, rfl, by decide⟩
    | cons c r ih =>
      rw [selectLoop]
      by_cases hc : c.isEmpty = true
      · rw [if_pos hc]
        exact ih
      · rw [if_neg hc]
        exact ⟨.typeError, rfl, by decide⟩

/-- C10 amended: `set_name` always fails during name selection — with
`TypeError` at the first non-empty candidate, `RuntimeError` when every
candidate is empty, `ValueError` when there is none — before the deletions
of lines 360-361 run, so it never raises the `KeyError` the claim describes
and never creates a missing `fn`/`n` key. -/
theorem C10_amended (french : Bool) (attributes : Attrs) :
    ∃ e, set_name french attributes = .error e ∧ e ≠ PyErr.keyError := by
  unfold set_name
  obtain ⟨e, he, hne⟩ := select_never_ok
    (((alookup (s2c "email") attributes).getD []).foldl
      (fun acc v =>
        match matchNameInEmail (pyStrip v) with
        | some nm => addIfAbsent (sanitize_name nm) acc
        | none => acc)
      (((alookup (s2c "n") attributes).getD []).foldl
        (fun acc v => addIfAbsent (sanitize_name v) acc)
        (((alookup (s2c "fn") attributes).getD []).foldl
          (fun acc v => addIfAbsent (sanitize_name v) acc) [])))
  exact ⟨e, by simp only [he], hne⟩

/-- C9 amended: with french tweaks, each `TEL` value is stripped of edge
whitespace and interior space characters, and when the result starts with
`+33` *every* occurrence of `+33` is replaced by `0` (non-leading ones
included); the resulting values contain no space character. -/
theorem C9_amended (sel : PyStr) (v : VCardN) :
    (normalize true sel v).tel = v.tel.map frTelFix
    ∧ ∀ t ∈ (normalize true sel v).tel, 32 ∉ t := by
  constructor
  · rfl
  · intro t ht
    simp only [normalize] at ht
    rw [List.mem_map] at ht
    obtain ⟨o, ho, rfl⟩ := ht
    intro habs
    by_cases hp : pfx (s2c "+33") (pyReplace (s2c " ") [] (pyStrip o)) = true
    · have habs2 : 32 ∈ (if pfx (s2c "+33") (pyReplace (s2c " ") [] (pyStrip o)) = true
          then pyReplace (s2c "+33") (s2c "0") (pyReplace (s2c " ") [] (pyStrip o))
          else pyReplace (s2c " ") [] (pyStrip o)) := habs
      rw [if_pos hp] at habs2
      rcases mem_pyReplaceAux habs2 with hl | hr
      · exact (pyRemoveSpaces_no_space hl).2 rfl
      · simp [s2c] at hr
    · have habs2 : 32 ∈ (if pfx (s2c "+33") (pyReplace (s2c " ") [] (pyStrip o)) = true
          then pyReplace (s2c "+33") (s2c "0") (pyReplace (s2c " ") [] (pyStrip o))
          else pyReplace (s2c " ") [] (pyStrip o)) := habs
      rw [if_neg hp] at habs2
      exact (pyRemoveSpaces_no_space habs2).2 rfl

/-- C9 amended, witnessed at a concrete record. -/
theorem C9_amended_witness :
    s2c "0612" ∈ (normalize true (s2c "Al")
      { version := [], fn := [], n := [], email := [],
        tel := [s2c "+33 6 12"], note := [] }).tel
    ∧ 32 ∉ s2c "0612" :=
  ⟨by decide,
   (C9_amended (s2c "Al")
     { version := [], fn := [], n := [], email := [],
       tel := [s2c "+33 6 12"], note := [] }).2 (s2c "0612") (by decide)⟩

/-- C2 amended: with default options the record ends with exactly one `FN`
(the selected name), exactly one `N`, no `VERSION`; every `EMAIL` value is
lowercase and free of a wrapped display name, and is either stripped and not
ending in `@nowhere.invalid` (the direct case) or recovered from inside the
angle brackets of a wrapped form (in which case it may keep inner spaces and
such a suffix, but contains no `>`); every `TEL` value is free of space
characters (other whitespace may remain in the interior). -/
theorem C2_amended (sel : PyStr) (v : VCardN) :
    (normalize false sel v).fn = [sel]
    ∧ (normalize false sel v).n = [build_formatted_name false sel]
    ∧ (normalize false sel v).version = []
    ∧ (∀ e ∈ (normalize false sel v).email,
        (∀ c ∈ e, lowerCp c = c) ∧ matchEmailWithName e = none
        ∧ (pyStrip e = e ∧ sfx (s2c "@nowhere.invalid") e = false ∨ 62 ∉ e))
    ∧ ∀ t ∈ (normalize false sel v).tel, 32 ∉ t := by
  refine ⟨rfl, rfl, rfl, ?_, ?_⟩
  · intro e he
    simp only [normalize] at he
    rw [List.mem_filterMap] at he
    obtain ⟨o, ho, hfo⟩ := he
    have hfo2 : (if sfx (s2c "@nowhere.invalid") (pyLower (pyStrip o)) = true then none
        else match matchEmailWithName (pyLower (pyStrip o)) with
             | some addr => some addr
             | none => some (pyLower (pyStrip o))) = some e := hfo
    split at hfo2
    · exact absurd hfo2 (by simp)
    · rename_i hend
      split at hfo2
      · rename_i addr hm
        simp only [Option.some.injEq] at hfo2
        subst hfo2
        obtain ⟨hsub, hngt, -⟩ := matchEmailWithName_spec hm
        refine ⟨fun c hc => mem_pyLower (hsub c hc), matchEmailWithName_none hngt, Or.inr hngt⟩
      · rename_i hm
        simp only [Option.some.injEq] at hfo2
        subst hfo2
        refine ⟨fun c hc => mem_pyLower hc, hm, Or.inl ⟨?_, ?_⟩⟩
        · rw [pyStrip_pyLower, pyStrip_idem]
        · simpa using hend
  · intro t ht
    simp only [normalize] at ht
    rw [List.mem_map] at ht
    obtain ⟨o, ho, rfl⟩ := ht
    intro habs
    exact (pyRemoveSpaces_no_space habs).2 rfl

/-- C2 amended, witnessed at a concrete record. -/
theorem C2_amended_witness :
    s2c "bob@x.com" ∈ (normalize false (s2c "Al")
      { version := [s2c "3.0"], fn := [], n := [],
        email := [s2c " Bob@X.com "], tel := [], note := [] }).email
    ∧ ((∀ c ∈ s2c "bob@x.com", lowerCp c = c)
        ∧ matchEmailWithName (s2c "bob@x.com") = none
        ∧ (pyStrip (s2c "bob@x.com") = s2c "bob@x.com"
            ∧ sfx (s2c "@nowhere.invalid") (s2c "bob@x.com") = false
           ∨ 62 ∉ s2c "bob@x.com")) :=
  ⟨by decide,
   (C2_amended (s2c "Al")
     { version := [s2c "3.0"], fn := [], n := [],
       email := [s2c " Bob@X.com "], tel := [], note := [] }).2.2.2.1
     (s2c "bob@x.com") (by decide)⟩

end Vcardlib
